import Mathlib

/-!
chrsm/daz: the DSON document types and their two custom JSON decoders.

A shallow embedding of `types.go`.  The file declares the Go structs that
`encoding/json` fills by reflection and two hand-written `UnmarshalJSON`
methods (`DazTime`, `FloatIndexedArray`).  What those methods and the struct
declarations do is fixed by three standard-library routines they hand their
input to: `time.Parse`, `strconv.ParseInt`/`ParseFloat` and the reflective
decoder of `encoding/json`.  Each of them is embedded here as far as the
declared types exercise it.

Conventions.
* A Go `string`/`[]byte` is a list of bytes (`Bytes`); `bytes "..."` is the
  UTF-8 encoding of a Lean string literal.
* JSON text that has already been scanned is a `JSON` tree; object members
  keep their order and may repeat.
* Go `int` is the 64-bit `int` of the usual targets.
* The capacity a slice gets when it has to grow is the runtime's choice
  (it depends on the release and on the allocator's size classes).  The
  decoder takes it as the parameter `grow`; what is proved holds for every
  `grow`, and the closed examples use `growDouble`.
* A Go method with a pointer receiver takes the receiver's value and returns
  the receiver's value after the call next to its result.
-/

set_option maxRecDepth 100000

namespace Daz

/-! ## Byte strings -/

/-- A Go `string` or `[]byte`. -/
abbrev Bytes := List UInt8

/-- The UTF-8 bytes of a string. -/
def bytes (s : String) : Bytes := s.data.flatMap String.utf8EncodeChar

/-- Go `time.isDigit`: is there a decimal digit at index `i`. -/
def isDigit (s : Bytes) (i : Nat) : Bool :=
  match s[i]? with
  | some c => decide (0x30 ≤ c.toNat ∧ c.toNat ≤ 0x39)
  | none => false

/-- The value of the digit byte `c` (only used where `isDigit` holds). -/
def digitVal (c : UInt8) : Nat := c.toNat - 0x30

/-! ## `time.ParseError` and its message -/

/-- Go `time.RFC3339`. -/
def RFC3339 : Bytes := bytes "2006-01-02T15:04:05Z07:00"

/-- Go `time.ParseError`. -/
structure ParseError where
  Layout : Bytes
  Value : Bytes
  LayoutElem : Bytes
  ValueElem : Bytes
  Message : Bytes
deriving DecidableEq, Repr

/-- Go `time.lowerhex`, indexed by a nibble. -/
def lowerhex (n : Nat) : UInt8 :=
  ((bytes "0123456789abcdef")[n]?).getD 0x30

/-- What Go `time.quote` appends for one byte of its argument.  `quote`
ranges over runes, and escapes every byte of a rune that is not printable
ASCII (an invalid byte being a rune of width one), so byte by byte: a byte
below space or from 0x80 on becomes `\xHH`, a double quote or a backslash
gets a backslash in front, any other byte is kept. -/
def quoteByte (c : UInt8) : Bytes :=
  if c.toNat ≥ 0x80 ∨ c.toNat < 0x20 then
    [0x5c, 0x78, lowerhex (c.toNat / 16), lowerhex (c.toNat % 16)]
  else if c = 0x22 ∨ c = 0x5c then [0x5c, c]
  else [c]

/-- Go `time.quote`. -/
def quote (s : Bytes) : Bytes := 0x22 :: (s.flatMap quoteByte ++ [0x22])

/-- Go `(*ParseError).Error`. -/
def ParseError.Error (e : ParseError) : Bytes :=
  if e.Message = [] then
    bytes "parsing time " ++ quote e.Value ++ bytes " as " ++ quote e.Layout ++
      bytes ": cannot parse " ++ quote e.ValueElem ++ bytes " as " ++ quote e.LayoutElem
  else
    bytes "parsing time " ++ quote e.Value ++ e.Message

/-! ## `time.Parse` with the layout `time.RFC3339` -/

/-- The zone of a parsed time: `UTC` for a `Z` suffix, otherwise a zone with
the written offset in seconds east of UTC (Go takes `Local` when its offset
at that instant is the written one and `FixedZone("", offset)` otherwise). -/
inductive Location where
  | UTC
  | offset (seconds : Int)
deriving DecidableEq, Repr

/-- A Go `time.Time`, by the calendar reading it has in its own zone. -/
structure Time where
  year : Nat
  month : Nat
  day : Nat
  hour : Nat
  min : Nat
  sec : Nat
  nsec : Nat
  loc : Location
deriving DecidableEq, Repr

/-- The zero `time.Time`: January 1, year 1, 00:00:00 UTC. -/
def Time.zero : Time := ⟨1, 1, 1, 0, 0, 0, 0, .UTC⟩

/-- Go `time.isLeap`. -/
def isLeap (year : Nat) : Bool :=
  year % 4 == 0 && (year % 100 != 0 || year % 400 == 0)

/-- Go `time.daysIn`. -/
def daysIn (month year : Nat) : Nat :=
  if month = 2 then (if isLeap year then 29 else 28)
  else if month = 4 ∨ month = 6 ∨ month = 9 ∨ month = 11 then 30
  else 31

/-- Go `time.getnum`: one or two digits (`fixed`: exactly two); `none` is
`errBad`. -/
def getnum (s : Bytes) (fixed : Bool) : Option (Nat × Bytes) :=
  if !isDigit s 0 then none
  else if !isDigit s 1 then
    if fixed then none else some (digitVal (s.headD 0), s.drop 1)
  else some (digitVal (s.headD 0) * 10 + digitVal ((s.drop 1).headD 0), s.drop 2)

/-- Go `time.atoi` on a string that starts with a digit: the number when
every byte is a digit, `none` (`errAtoi`) otherwise. -/
def atoiDigits (s : Bytes) : Option Nat :=
  s.foldl (fun acc c =>
    match acc with
    | none => none
    | some x => if 0x30 ≤ c.toNat ∧ c.toNat ≤ 0x39 then some (x * 10 + digitVal c) else none)
    (some 0)

/-- The number of digits `value` has from index 1 on (the loop
`for n := 2; n < len(value) && isDigit(value, n); n++` plus the first digit),
as the index `n` the loop stops at. -/
def fracEnd (value : Bytes) : Nat :=
  1 + ((value.drop 1).takeWhile fun c => decide (0x30 ≤ c.toNat ∧ c.toNat ≤ 0x39)).length

/-- Go `time.parseNanoseconds(value, nbytes)` for a `value` that starts with
a period or comma followed by digits up to `nbytes`: at most nine digits are
read and scaled to nanoseconds. -/
def parseNanoseconds (value : Bytes) (nbytes : Nat) : Nat :=
  let nbytes := min nbytes 10
  let ns := ((value.take nbytes).drop 1).foldl (fun x c => x * 10 + digitVal c) 0
  ns * 10 ^ (10 - nbytes)

/-- Go `time.commaOrPeriod`. -/
def commaOrPeriod (c : UInt8) : Bool := c = 0x2e || c = 0x2c

/-- Go `time.newParseError` for the layout `RFC3339`. -/
def newParseError (avalue layoutElem valueElem message : Bytes) : ParseError :=
  ⟨RFC3339, avalue, layoutElem, valueElem, message⟩

/-- The layout chunk `-`, `T` or `:` followed by a two-digit field:
`skip(value, prefix)` and then `getnum`, with the field's range test.
`bad` is the field's range test, reported under `name`. -/
def parseField (avalue : Bytes) (pre : UInt8) (stdstr : String) (fixed : Bool)
    (bad : Nat → Bool) (name : String) (value : Bytes) :
    Except ParseError (Nat × Bytes) :=
  match value with
  | [] => .error (newParseError avalue [pre] value [])
  | c :: rest =>
    if c ≠ pre then .error (newParseError avalue [pre] value [])
    else
      match getnum rest fixed with
      | none => .error (newParseError avalue (bytes stdstr) rest [])
      | some (n, value') =>
        if bad n then
          .error (newParseError avalue (bytes stdstr) value'
            (bytes ": " ++ bytes name ++ bytes " out of range"))
        else .ok (n, value')

/-- The layout chunk `Z07:00` (`stdISO8601ColonTZ`). -/
def parseZone (avalue value : Bytes) : Except ParseError (Location × Bytes) :=
  if value.head? = some 0x5a then .ok (.UTC, value.drop 1)
  else if value.length < 6 then .error (newParseError avalue (bytes "Z07:00") value [])
  else if value[3]? ≠ some 0x3a then .error (newParseError avalue (bytes "Z07:00") value [])
  else
    let rest := value.drop 6
    match getnum ((value.drop 1).take 2) true with
    | none => .error (newParseError avalue (bytes "Z07:00") value [])
    | some (hr, _) =>
      match getnum ((value.drop 4).take 2) true with
      | none =>
        if hr > 24 then
          .error (newParseError avalue (bytes "Z07:00") rest
            (bytes ": time zone offset hour out of range"))
        else .error (newParseError avalue (bytes "Z07:00") value [])
      | some (mm, _) =>
        if mm > 60 then
          .error (newParseError avalue (bytes "Z07:00") rest
            (bytes ": time zone offset minute out of range"))
        else if hr > 24 then
          .error (newParseError avalue (bytes "Z07:00") rest
            (bytes ": time zone offset hour out of range"))
        else
          let off : Int := ((hr * 60 + mm) * 60 : Nat)
          if value.head? = some 0x2b then .ok (.offset off, rest)
          else if value.head? = some 0x2d then .ok (.offset (-off), rest)
          else .error (newParseError avalue (bytes "Z07:00") value [])

/-- Go `time.Parse(time.RFC3339, value)`: the generic layout-driven parser
run on the chunks of `2006-01-02T15:04:05Z07:00` (the fast path
`parseRFC3339` that `Parse` tries first accepts a subset of these inputs
with the same result, and falls back to this parser otherwise). -/
def timeParse (avalue : Bytes) : Except ParseError Time :=
  -- stdLongYear
  if avalue.length < 4 ∨ !isDigit avalue 0 then
    .error (newParseError avalue (bytes "2006") avalue [])
  else
    match atoiDigits (avalue.take 4) with
    | none => .error (newParseError avalue (bytes "2006") avalue [])
    | some year =>
      -- "-" stdZeroMonth
      match parseField avalue 0x2d "01" true (fun m => m == 0 || 12 < m) "month"
          (avalue.drop 4) with
      | .error e => .error e
      | .ok (month, v2) =>
      -- "-" stdZeroDay
      match parseField avalue 0x2d "02" true (fun _ => false) "day" v2 with
      | .error e => .error e
      | .ok (day, v3) =>
      -- "T" stdHour
      match parseField avalue 0x54 "15" false (fun h => 24 ≤ h) "hour" v3 with
      | .error e => .error e
      | .ok (hour, v4) =>
      -- ":" stdZeroMinute
      match parseField avalue 0x3a "04" true (fun m => 60 ≤ m) "minute" v4 with
      | .error e => .error e
      | .ok (min, v5) =>
      -- ":" stdZeroSecond
      match parseField avalue 0x3a "05" true (fun s => 60 ≤ s) "second" v5 with
      | .error e => .error e
      | .ok (sec, v6) =>
      -- a fractional second in the input though the layout has none
      let hasFrac := decide (v6.length ≥ 2) && commaOrPeriod (v6.headD 0) && isDigit v6 1
      let nsec := if hasFrac then parseNanoseconds v6 (fracEnd v6) else 0
      let v7 := if hasFrac then v6.drop (fracEnd v6) else v6
      -- stdISO8601ColonTZ
      match parseZone avalue v7 with
      | .error e => .error e
      | .ok (loc, v8) =>
      if v8 ≠ [] then
        .error (newParseError avalue [] v8 (bytes ": extra text: " ++ quote v8))
      else if day < 1 ∨ day > daysIn month year then
        .error (newParseError avalue [] v8 (bytes ": day out of range"))
      else .ok ⟨year, month, day, hour, min, sec, nsec, loc⟩

/-! ## `DazTime` -/

/-- Go `type DazTime struct { time.Time }`. -/
structure DazTime where
  Time : Time
deriving DecidableEq, Repr

/-- Go `func (dt *DazTime) UnmarshalJSON(b []byte) error`: the receiver after
the call and the returned error (`none` is `nil`). -/
def DazTime.UnmarshalJSON (dt : DazTime) (b : Bytes) : DazTime × Option ParseError :=
  match timeParse b with
  | .error err => (dt, some err)
  | .ok theTime => (⟨theTime⟩, none)

/-! ## JSON values -/

/-- A JSON number token: an optional minus sign, the integer digits, the
digits after a decimal point (none when there is no point) and the exponent
(when there is one). -/
structure JNumber where
  neg : Bool
  int : Nat
  frac : List (Fin 10)
  exp : Option Int
deriving DecidableEq, Repr

/-- The token that writes the integer `i` without fraction or exponent. -/
def JNumber.ofInt (i : Int) : JNumber := ⟨decide (i < 0), i.natAbs, [], none⟩

/-- A scanned JSON value.  Strings and member names are the unquoted text. -/
inductive JSON where
  | null
  | bool (b : Bool)
  | num (n : JNumber)
  | str (s : String)
  | arr (xs : List JSON)
  | obj (ms : List (String × JSON))

/-! ## `strconv.ParseInt` and `strconv.ParseFloat` on number tokens -/

/-- Go `strconv.ParseInt(s, 10, 64)` on a JSON number token: the value when
the token is a plain integer within the int64 range, `none` for an error. -/
def parseInt64 (n : JNumber) : Option Int :=
  if n.frac = [] ∧ n.exp = none then
    let v : Int := if n.neg then -(n.int : Int) else n.int
    if -(2 : Int) ^ 63 ≤ v ∧ v < (2 : Int) ^ 63 then some v else none
  else none

/-- A finite binary floating-point value `(-1)^neg * mant * 2^exp`, with
`mant` odd, or `mant = 0` and `exp = 0`. -/
structure GoFloat where
  neg : Bool
  mant : Nat
  exp : Int
deriving DecidableEq, Repr

/-- The zero value of `float32` and `float64`. -/
def GoFloat.zero : GoFloat := ⟨false, 0, 0⟩

/-- The number of binary digits of `n` (`fuel` at least that number). -/
def bitLen : Nat → Nat → Nat
  | 0, _ => 0
  | fuel + 1, n => if n = 0 then 0 else bitLen fuel (n / 2) + 1

/-- The integer part of the binary logarithm of `N / D`, for positive `N`
and `D`. -/
def floorLog2 (N D : Nat) : Int :=
  let k : Int := (bitLen N N : Int) - (bitLen D D : Int)
  if (if 0 ≤ k then decide (D * 2 ^ k.toNat ≤ N) else decide (D ≤ N * 2 ^ (-k).toNat)) then k
  else k - 1

/-- Divide `m` by two while it is even (`fuel` at least the number of
trailing zero bits). -/
def stripTwos : Nat → Nat → Int → Nat × Int
  | 0, m, e => (m, e)
  | fuel + 1, m, e => if m % 2 = 0 then stripTwos fuel (m / 2) (e + 1) else (m, e)

/-- The value `(-1)^neg * m * 2^e` in the form `GoFloat` keeps. -/
def GoFloat.make (neg : Bool) (m : Nat) (e : Int) : GoFloat :=
  if m = 0 then ⟨neg, 0, 0⟩ else ⟨neg, (stripTwos m m e).1, (stripTwos m m e).2⟩

/-- Round `N / D` to the nearest value with `p` significant bits and binary
exponent between `emin` and `emax` (subnormals below `emin`), ties to even:
the IEEE 754 rounding `strconv.ParseFloat` performs.  `none` is its
`ErrRange`, returned when the rounded value exceeds the largest finite
one. -/
def roundFloat (p : Nat) (emin emax : Int) (neg : Bool) (N D : Nat) : Option GoFloat :=
  if N = 0 then some ⟨neg, 0, 0⟩
  else
    let e := max (floorLog2 N D) emin
    let q : Int := e - ((p : Int) - 1)
    let num := if q < 0 then N * 2 ^ (-q).toNat else N
    let den := if q < 0 then D else D * 2 ^ q.toNat
    let m0 := num / den
    let r := num % den
    let m := if den < 2 * r ∨ (den = 2 * r ∧ m0 % 2 = 1) then m0 + 1 else m0
    if 0 ≤ q ∧ 2 ^ (emax + 1).toNat ≤ m * 2 ^ q.toNat then none
    else some (GoFloat.make neg m q)

/-- The decimal digits `ds` read as a number. -/
def digitsVal (ds : List (Fin 10)) : Nat := ds.foldl (fun a d => a * 10 + d.val) 0

/-- The magnitude of a number token as a fraction `(N, D)`. -/
def JNumber.ratio (n : JNumber) : Nat × Nat :=
  let m := n.int * 10 ^ n.frac.length + digitsVal n.frac
  let e : Int := n.exp.getD 0 - (n.frac.length : Int)
  if 0 ≤ e then (m * 10 ^ e.toNat, 1) else (m, 10 ^ (-e).toNat)

/-- Go `strconv.ParseFloat(s, 32)` on a JSON number token. -/
def parseFloat32 (n : JNumber) : Option GoFloat :=
  roundFloat 24 (-126) 127 n.neg n.ratio.1 n.ratio.2

/-- Go `strconv.ParseFloat(s, 64)` on a JSON number token. -/
def parseFloat64 (n : JNumber) : Option GoFloat :=
  roundFloat 53 (-1022) 1023 n.neg n.ratio.1 n.ratio.2

/-! ## Go values the decoder stores into -/

/-- What a Go `interface{}` holds: `nil`, or a value with its dynamic
type.  The types listed are those `types.go` asserts (`int`, `float32`) and
those `encoding/json` stores into an empty interface. -/
inductive GoAny where
  | nil
  | bool (b : Bool)
  | int (i : Int)
  | float32 (f : GoFloat)
  | float64 (f : GoFloat)
  | string (s : String)
  | slice (xs : List GoAny)
  | map (m : List (String × GoAny))

/-- The dynamic type of an interface value as the runtime prints it; `none`
for the nil interface. -/
def GoAny.typeName : GoAny → Option String
  | .nil => none
  | .bool _ => some "bool"
  | .int _ => some "int"
  | .float32 _ => some "float32"
  | .float64 _ => some "float64"
  | .string _ => some "string"
  | .slice _ => some "[]interface \x7b\x7d"
  | .map _ => some "map[string]interface \x7b\x7d"

/-- A Go slice: `nil`, or the elements up to its length followed by what its
backing array holds between length and capacity (`spare`; the capacity is
the length of both together).  The decoder re-uses the spare part when a
slice it is handed gets longer. -/
inductive GoSlice (α : Type) where
  | nil
  | mk (elems spare : List α)
deriving DecidableEq, Repr

/-- The elements of a slice. -/
def GoSlice.elems {α : Type} : GoSlice α → List α
  | .nil => []
  | .mk es _ => es

/-- The backing array of a slice, up to its capacity. -/
def GoSlice.backing {α : Type} : GoSlice α → List α
  | .nil => []
  | .mk es sp => es ++ sp

/-- The capacity of a slice that had capacity `cap` once the decoder has
stored `n` elements into it.  Each time the index reaches the capacity the
decoder grows the full slice by `reflect.Value.Grow(1)` (before Go 1.20 by
`reflect.MakeSlice` and `reflect.Copy`), and the runtime takes a full slice
of capacity `c` to the capacity `grow c`.  `fuel` bounds the number of
growth steps; `n` steps suffice, as each adds at least one element. -/
def grownCap (grow : Nat → Nat) : Nat → Nat → Nat → Nat
  | 0, cap, _ => cap
  | fuel + 1, cap, n =>
    if n ≤ cap then cap else grownCap grow fuel (max (cap + 1) (grow cap)) n

/-- What the backing array `back` holds past the first `n` elements once the
decoder has stored `n` elements into it: the old content past `n` when the
capacity sufficed, and zero elements up to the grown capacity when not. -/
def spareAfter {α : Type} (grow : Nat → Nat) (zero : α) (back : List α) (n : Nat) : List α :=
  (back ++ List.replicate (grownCap grow n back.length n - back.length) zero).drop n

/-- The runtime's growth of a full slice by one element while the capacity
is below 256 (`nextslicecap`): from 0 to 1, then doubling.  The allocator
rounds the new capacity up to a size class, which changes none of the
capacities 1, 2, 4 and 8 for the element types of `types.go`. -/
def growDouble (cap : Nat) : Nat := if cap = 0 then 1 else 2 * cap

/-- Go `make([]T, n)`: `n` zero elements and no spare capacity. -/
def GoSlice.make {α : Type} (zero : α) (n : Nat) : GoSlice α := .mk (List.replicate n zero) []

/-- A Go array `[n]T`. -/
def GoArray (n : Nat) (α : Type) : Type := { l : List α // l.length = n }

instance {n : Nat} {α : Type} [DecidableEq α] : DecidableEq (GoArray n α) :=
  inferInstanceAs (DecidableEq { l : List α // l.length = n })

instance {n : Nat} {α : Type} [Repr α] : Repr (GoArray n α) := ⟨fun a k => reprPrec a.val k⟩

/-- The zero value of `[n]T`. -/
def GoArray.zero {α : Type} (n : Nat) (zero : α) : GoArray n α :=
  ⟨List.replicate n zero, List.length_replicate n zero⟩

/-- Go `a[i]` for an index within the array. -/
def GoArray.get {n : Nat} {α : Type} (a : GoArray n α) (i : Fin n) : α :=
  a.val.get ⟨i.val, by rw [a.property]; exact i.isLt⟩

/-! ## The reflective decoder of `encoding/json` -/

/-- Go `json.UnmarshalTypeError`: the kind of JSON value met (`Value`; for a
number token that does not fit the target the token is kept in `Number`) and
the Go type it could not be stored into. -/
structure UnmarshalTypeError where
  Value : String
  Number : Option JNumber
  Typ : String
deriving DecidableEq, Repr

/-- Decoding a JSON value into a Go value of type `α`: the value after the
call and the decoder's `savedError`.  A saved error does not stop the
decoder; it goes on with the rest of the input and returns the earliest
saved error at the end. -/
abbrev Dec (α : Type) := JSON → α → α × Option UnmarshalTypeError

/-- Go `(*decodeState).saveError` across two steps: the earlier error is
kept. -/
def firstError (a b : Option UnmarshalTypeError) : Option UnmarshalTypeError :=
  match a with
  | some e => some e
  | none => b

/-- Go `m[key] = value` on a map kept as a list of distinct keys. -/
def mapSet {β : Type} : List (String × β) → String → β → List (String × β)
  | [], k, v => [(k, v)]
  | (k', v') :: m, k, v => if k' = k then (k, v) :: m else (k', v') :: mapSet m k v

mutual
/-- Go `(*decodeState).valueInterface`: a JSON value as an `interface{}`. -/
def valueInterface : JSON → GoAny × Option UnmarshalTypeError
  | .null => (.nil, none)
  | .bool b => (.bool b, none)
  | .num n =>
    match parseFloat64 n with
    | some f => (.float64 f, none)
    | none => (.nil, some ⟨"number", some n, "float64"⟩)
  | .str s => (.string s, none)
  | .arr xs => ((GoAny.slice (arrayInterface xs).1), (arrayInterface xs).2)
  | .obj ms => ((GoAny.map (objectInterface ms []).1), (objectInterface ms []).2)
/-- Go `(*decodeState).arrayInterface`. -/
def arrayInterface : List JSON → List GoAny × Option UnmarshalTypeError
  | [] => ([], none)
  | x :: xs =>
    ((valueInterface x).1 :: (arrayInterface xs).1,
      firstError (valueInterface x).2 (arrayInterface xs).2)
/-- Go `(*decodeState).objectInterface`, from the members read so far. -/
def objectInterface : List (String × JSON) → List (String × GoAny) →
    List (String × GoAny) × Option UnmarshalTypeError
  | [], m => (m, none)
  | (k, x) :: ms, m =>
    ((objectInterface ms (mapSet m k (valueInterface x).1)).1,
      firstError (valueInterface x).2 (objectInterface ms (mapSet m k (valueInterface x).1)).2)
end

/-- Decoding into a Go `int`. -/
def decodeInt : Dec Int
  | .null, v => (v, none)
  | .bool _, v => (v, some ⟨"bool", none, "int"⟩)
  | .num n, v =>
    match parseInt64 n with
    | some i => (i, none)
    | none => (v, some ⟨"number", some n, "int"⟩)
  | .str _, v => (v, some ⟨"string", none, "int"⟩)
  | .arr _, v => (v, some ⟨"array", none, "int"⟩)
  | .obj _, v => (v, some ⟨"object", none, "int"⟩)

/-- Decoding into a Go `float32`. -/
def decodeFloat32 : Dec GoFloat
  | .null, v => (v, none)
  | .bool _, v => (v, some ⟨"bool", none, "float32"⟩)
  | .num n, v =>
    match parseFloat32 n with
    | some f => (f, none)
    | none => (v, some ⟨"number", some n, "float32"⟩)
  | .str _, v => (v, some ⟨"string", none, "float32"⟩)
  | .arr _, v => (v, some ⟨"array", none, "float32"⟩)
  | .obj _, v => (v, some ⟨"object", none, "float32"⟩)

/-- Decoding into a Go `string`. -/
def decodeString : Dec String
  | .null, v => (v, none)
  | .bool _, v => (v, some ⟨"bool", none, "string"⟩)
  | .num _, v => (v, some ⟨"number", none, "string"⟩)
  | .str s, _ => (s, none)
  | .arr _, v => (v, some ⟨"array", none, "string"⟩)
  | .obj _, v => (v, some ⟨"object", none, "string"⟩)

/-- Decoding into a Go `interface{}`: whatever it held is replaced (a number
token out of the float64 range is skipped with a saved error). -/
def decodeInterface : Dec GoAny
  | .num n, v =>
    match parseFloat64 n with
    | some f => (.float64 f, none)
    | none => (v, some ⟨"number", some n, "float64"⟩)
  | j, _ => valueInterface j

/-- The element loop of `(*decodeState).array` on a slice: element `i` of
the JSON array is decoded into what the backing array holds at `i`, or into
a zero element past the capacity. -/
def decodeElems {α : Type} (dec : Dec α) (zero : α) :
    List JSON → List α → List α × Option UnmarshalTypeError
  | [], _ => ([], none)
  | j :: js, back =>
    ((dec j (back.headD zero)).1 :: (decodeElems dec zero js back.tail).1,
      firstError (dec j (back.headD zero)).2 (decodeElems dec zero js back.tail).2)

/-- Decoding into a Go slice `[]T` whose element type is not a byte: `grow`
is the runtime's growth of a full slice, `ty` the name of the slice type,
`dec` and `zero` the decoder and zero value of `T`.  `null` gives the nil
slice, an empty array a fresh empty slice of capacity 0, any other array a
slice of exactly its elements, in the backing array it had if that was
large enough and in a grown one if not. -/
def decodeSlice {α : Type} (grow : Nat → Nat) (ty : String) (dec : Dec α) (zero : α) :
    Dec (GoSlice α)
  | .null, _ => (.nil, none)
  | .bool _, v => (v, some ⟨"bool", none, ty⟩)
  | .num _, v => (v, some ⟨"number", none, ty⟩)
  | .str _, v => (v, some ⟨"string", none, ty⟩)
  | .arr [], _ => (.mk [] [], none)
  | .arr (j :: js), v =>
    (.mk (decodeElems dec zero (j :: js) v.backing).1
        (spareAfter grow zero v.backing (j :: js).length),
      (decodeElems dec zero (j :: js) v.backing).2)
  | .obj _, v => (v, some ⟨"object", none, ty⟩)

/-- The element loop of `(*decodeState).array` on an array `[n]T`: JSON
elements past the array's length are skipped, array elements past the JSON
array's length are set to zero.  The result has the length of the array. -/
def decodeArrayElems {α : Type} (dec : Dec α) (zero : α) :
    List JSON → (as : List α) →
      { l : List α // l.length = as.length } × Option UnmarshalTypeError
  | _, [] => (⟨[], rfl⟩, none)
  | [], _ :: as =>
    (⟨zero :: (decodeArrayElems dec zero [] as).1.val,
        congrArg Nat.succ (decodeArrayElems dec zero [] as).1.property⟩, none)
  | j :: js, a :: as =>
    (⟨(dec j a).1 :: (decodeArrayElems dec zero js as).1.val,
        congrArg Nat.succ (decodeArrayElems dec zero js as).1.property⟩,
      firstError (dec j a).2 (decodeArrayElems dec zero js as).2)

/-- Decoding into a Go array `[n]T`. -/
def decodeArray {α : Type} {n : Nat} (ty : String) (dec : Dec α) (zero : α) : Dec (GoArray n α)
  | .null, v => (v, none)
  | .bool _, v => (v, some ⟨"bool", none, ty⟩)
  | .num _, v => (v, some ⟨"number", none, ty⟩)
  | .str _, v => (v, some ⟨"string", none, ty⟩)
  | .arr js, v =>
    (⟨(decodeArrayElems dec zero js v.val).1.val,
        (decodeArrayElems dec zero js v.val).1.property.trans v.property⟩,
      (decodeArrayElems dec zero js v.val).2)
  | .obj _, v => (v, some ⟨"object", none, ty⟩)

/-- One rune of `encoding/json`'s `foldName`: ASCII letters go to upper
case; of the other runes only the two whose case folding reaches ASCII are
mapped (the long s and the Kelvin sign), which is all that comparing with an
ASCII field name can depend on. -/
def foldRune (c : Char) : Char :=
  if 0x61 ≤ c.toNat ∧ c.toNat ≤ 0x7a then Char.ofNat (c.toNat - 0x20)
  else if c.toNat = 0x17f then 'S'
  else if c.toNat = 0x212a then 'K'
  else c

/-- Go `json.foldName`. -/
def foldName (s : String) : String := ⟨s.data.map foldRune⟩

/-- A struct field as the decoder sees it: the name it answers to (the
`json` tag, or the Go field name when there is no tag) and the decoding of a
JSON value into that field of a struct value. -/
structure Field (σ : Type) where
  name : String
  dec : Dec σ

/-- A field made of its name, getter, setter and the decoder of its type. -/
def Field.of {σ α : Type} (name : String) (get : σ → α) (set : σ → α → σ) (dec : Dec α) :
    Field σ :=
  ⟨name, fun j s => (set s (dec j (get s)).1, (dec j (get s)).2)⟩

/-- The field a member name selects: an exact match of the name, else the
first field equal to it under case folding. -/
def findField {σ : Type} (fields : List (Field σ)) (key : String) : Option (Field σ) :=
  match fields.find? (fun f => f.name == key) with
  | some f => some f
  | none => fields.find? (fun f => foldName f.name == foldName key)

/-- The member loop of `(*decodeState).object` on a struct: members are
taken in order, a member whose name selects no field is skipped. -/
def decodeMembers {σ : Type} (fields : List (Field σ)) :
    List (String × JSON) → σ → σ × Option UnmarshalTypeError
  | [], v => (v, none)
  | (k, j) :: ms, v =>
    match findField fields k with
    | none => decodeMembers fields ms v
    | some f =>
      ((decodeMembers fields ms (f.dec j v).1).1,
        firstError (f.dec j v).2 (decodeMembers fields ms (f.dec j v).1).2)

/-- Decoding into a Go struct named `ty` with the given fields. -/
def decodeStruct {σ : Type} (ty : String) (fields : List (Field σ)) : Dec σ
  | .null, v => (v, none)
  | .bool _, v => (v, some ⟨"bool", none, ty⟩)
  | .num _, v => (v, some ⟨"number", none, ty⟩)
  | .str _, v => (v, some ⟨"string", none, ty⟩)
  | .arr _, v => (v, some ⟨"array", none, ty⟩)
  | .obj ms, v => decodeMembers fields ms v

/-! ## The array containers of `types.go` -/

/-- Go `type IntArray struct`. -/
structure IntArray where
  Count : Int
  Values : GoSlice Int
deriving DecidableEq, Repr

/-- The zero value of `IntArray`. -/
def IntArray.zero : IntArray := ⟨0, .nil⟩

/-- The fields of `IntArray` with their `json` tags. -/
def IntArray.fields (grow : Nat → Nat) : List (Field IntArray) :=
  [Field.of "count" (fun s => s.Count) (fun s v => { s with Count := v }) decodeInt,
   Field.of "values" (fun s => s.Values) (fun s v => { s with Values := v })
     (decodeSlice grow "[]int" decodeInt 0)]

/-- What `encoding/json` does to decode into an `IntArray`. -/
def IntArray.decode (grow : Nat → Nat) : Dec IntArray :=
  decodeStruct "daz.IntArray" (IntArray.fields grow)

/-- Go `type Float3Array struct`. -/
structure Float3Array where
  Count : Int
  Values : GoSlice (GoArray 3 GoFloat)
deriving DecidableEq, Repr

/-- The zero value of `Float3Array`. -/
def Float3Array.zero : Float3Array := ⟨0, .nil⟩

/-- Decoding into a `[3]float32`. -/
def decodeFloat3 : Dec (GoArray 3 GoFloat) := decodeArray "[3]float32" decodeFloat32 GoFloat.zero

/-- The fields of `Float3Array` with their `json` tags. -/
def Float3Array.fields (grow : Nat → Nat) : List (Field Float3Array) :=
  [Field.of "count" (fun s => s.Count) (fun s v => { s with Count := v }) decodeInt,
   Field.of "values" (fun s => s.Values) (fun s v => { s with Values := v })
     (decodeSlice grow "[][3]float32" decodeFloat3 (GoArray.zero 3 GoFloat.zero))]

/-- What `encoding/json` does to decode into a `Float3Array`. -/
def Float3Array.decode (grow : Nat → Nat) : Dec Float3Array :=
  decodeStruct "daz.Float3Array" (Float3Array.fields grow)

/-- Go `type Polylist struct`: a count and the rows, nothing else. -/
structure Polylist where
  Count : Int
  Values : GoSlice (GoSlice Int)
deriving DecidableEq, Repr

/-- The zero value of `Polylist`. -/
def Polylist.zero : Polylist := ⟨0, .nil⟩

/-- The fields of `Polylist` with their `json` tags. -/
def Polylist.fields (grow : Nat → Nat) : List (Field Polylist) :=
  [Field.of "count" (fun s => s.Count) (fun s v => { s with Count := v }) decodeInt,
   Field.of "values" (fun s => s.Values) (fun s v => { s with Values := v })
     (decodeSlice grow "[][]int" (decodeSlice grow "[]int" decodeInt 0) .nil)]

/-- What `encoding/json` does to decode into a `Polylist`. -/
def Polylist.decode (grow : Nat → Nat) : Dec Polylist :=
  decodeStruct "daz.Polylist" (Polylist.fields grow)

/-! ## `FloatIndexedArray` and its `UnmarshalJSON` -/

/-- Go `type FloatPair struct`. -/
structure FloatPair where
  Index : Int
  Value : GoFloat
deriving DecidableEq, Repr

/-- The zero value of `FloatPair`. -/
def FloatPair.zero : FloatPair := ⟨0, GoFloat.zero⟩

/-- Go `type FloatIndexedArray struct`. -/
structure FloatIndexedArray where
  Count : Int
  Values : GoSlice FloatPair
deriving DecidableEq, Repr

/-- The zero value of `FloatIndexedArray`. -/
def FloatIndexedArray.zero : FloatIndexedArray := ⟨0, .nil⟩

/-- Go `type floatidxiface struct`: `Values` is `[][2]interface{}`. -/
structure floatidxiface where
  Count : Int
  Values : GoSlice (GoArray 2 GoAny)

/-- The zero value of `floatidxiface`, what `&floatidxiface{}` points to. -/
def floatidxiface.zero : floatidxiface := ⟨0, .nil⟩

/-- The fields of `floatidxiface`: `Count` is tagged `count`, `Values` has no
tag and answers to its Go name. -/
def floatidxiface.fields (grow : Nat → Nat) : List (Field floatidxiface) :=
  [Field.of "count" (fun s => s.Count) (fun s v => { s with Count := v }) decodeInt,
   Field.of "Values" (fun s => s.Values) (fun s v => { s with Values := v })
     (decodeSlice grow "[][2]interface \x7b\x7d"
       (decodeArray "[2]interface \x7b\x7d" decodeInterface GoAny.nil)
       (GoArray.zero 2 GoAny.nil))]

/-- What `encoding/json` does to decode into a `floatidxiface`. -/
def floatidxiface.decode (grow : Nat → Nat) : Dec floatidxiface :=
  decodeStruct "daz.floatidxiface" (floatidxiface.fields grow)

/-- Go `runtime.TypeAssertionError` for an assertion on an `interface{}`:
the dynamic type met (`none`: the interface is nil) and the asserted one.
The runtime panics with it. -/
structure TypeAssertionError where
  concrete : Option String
  asserted : String
deriving DecidableEq, Repr

/-- Go `x.(int)`. -/
def assertInt : GoAny → Except TypeAssertionError Int
  | .int i => .ok i
  | v => .error ⟨v.typeName, "int"⟩

/-- Go `x.(float32)`. -/
def assertFloat32 : GoAny → Except TypeAssertionError GoFloat
  | .float32 f => .ok f
  | v => .error ⟨v.typeName, "float32"⟩

/-- Replace element `i` of `l` by `f` of it. -/
def updateAt {α : Type} (f : α → α) : Nat → List α → List α
  | _, [] => []
  | 0, a :: l => f a :: l
  | i + 1, a :: l => a :: updateAt f i l

/-- The loop `for i := range temp.Values` of `UnmarshalJSON` from index `i`
on: `rows` is `temp.Values[i:]` and `vals` is `f3.Values`.  Returns
`f3.Values` as the loop leaves it, and the panic that ended it if one
did. -/
def fillValues : List (GoArray 2 GoAny) → Nat → List FloatPair →
    List FloatPair × Option TypeAssertionError
  | [], _, vals => (vals, none)
  | row :: rows, i, vals =>
    match assertInt (row.get 0) with
    | .error p => (vals, some p)
    | .ok idx =>
      match assertFloat32 (row.get 1) with
      | .error p => (updateAt (fun fp => { fp with Index := idx }) i vals, some p)
      | .ok x =>
        fillValues rows (i + 1)
          (updateAt (fun fp => { fp with Value := x }) i
            (updateAt (fun fp => { fp with Index := idx }) i vals))

/-- The error `(*json.Decoder).Decode` returns. -/
inductive DecodeError where
  /-- The input holds no complete JSON value (`*json.SyntaxError`, `io.EOF`,
  `io.ErrUnexpectedEOF`). -/
  | scan
  /-- The saved `*json.UnmarshalTypeError`. -/
  | type (e : UnmarshalTypeError)
deriving DecidableEq, Repr

/-- How a call ends: it returns its `error` (`none` is `nil`), or it
panics. -/
inductive Completion where
  | returned (err : Option DecodeError)
  | panicked (p : TypeAssertionError)
deriving DecidableEq, Repr

/-- Go `func (f3 *FloatIndexedArray) UnmarshalJSON(b []byte) error`.  `b` is
given by the JSON value the decoder scans from it (`none` when it scans
none), `grow` is the runtime's growth of the slice `temp.Values`.  Returns
the receiver after the call and how the call ended. -/
def FloatIndexedArray.UnmarshalJSON (grow : Nat → Nat) (f3 : FloatIndexedArray)
    (b : Option JSON) : FloatIndexedArray × Completion :=
  match b with
  | none => (f3, .returned (some .scan))
  | some j =>
    match floatidxiface.decode grow j floatidxiface.zero with
    | (_, some err) => (f3, .returned (some (.type err)))
    | (temp, none) =>
      match fillValues temp.Values.elems 0
          (GoSlice.make FloatPair.zero temp.Values.elems.length).elems with
      | (vals, some p) => (⟨temp.Count, .mk vals []⟩, .panicked p)
      | (vals, none) => (⟨temp.Count, .mk vals []⟩, .returned none)

/-! ## Scene node instances -/

/-- Go `type GeometryInstance struct`. -/
structure GeometryInstance where
  ID : String
  URL : String
deriving DecidableEq, Repr

/-- The zero value of `GeometryInstance`. -/
def GeometryInstance.zero : GeometryInstance := ⟨"", ""⟩

/-- The fields of `GeometryInstance`; none has a `json` tag. -/
def GeometryInstance.fields : List (Field GeometryInstance) :=
  [Field.of "ID" (fun s => s.ID) (fun s v => { s with ID := v }) decodeString,
   Field.of "URL" (fun s => s.URL) (fun s v => { s with URL := v }) decodeString]

/-- Go `type OrientedBox struct`. -/
structure OrientedBox where
  Min : GoArray 3 GoFloat
  Max : GoArray 3 GoFloat
deriving DecidableEq, Repr

/-- The zero value of `OrientedBox`. -/
def OrientedBox.zero : OrientedBox := ⟨GoArray.zero 3 GoFloat.zero, GoArray.zero 3 GoFloat.zero⟩

/-- The fields of `OrientedBox`; none has a `json` tag. -/
def OrientedBox.fields : List (Field OrientedBox) :=
  [Field.of "Min" (fun s => s.Min) (fun s v => { s with Min := v }) decodeFloat3,
   Field.of "Max" (fun s => s.Max) (fun s v => { s with Max := v }) decodeFloat3]

/-- Go `type Preview struct`. -/
structure Preview where
  OrientedBox : OrientedBox
  CenterPoint : GoArray 3 GoFloat
  EndPoint : GoArray 3 GoFloat
  RotationOrder : String
deriving DecidableEq, Repr

/-- The zero value of `Preview`. -/
def Preview.zero : Preview :=
  ⟨OrientedBox.zero, GoArray.zero 3 GoFloat.zero, GoArray.zero 3 GoFloat.zero, ""⟩

/-- The fields of `Preview`; none has a `json` tag. -/
def Preview.fields : List (Field Preview) :=
  [Field.of "OrientedBox" (fun s => s.OrientedBox) (fun s v => { s with OrientedBox := v })
     (decodeStruct "daz.OrientedBox" OrientedBox.fields),
   Field.of "CenterPoint" (fun s => s.CenterPoint) (fun s v => { s with CenterPoint := v })
     decodeFloat3,
   Field.of "EndPoint" (fun s => s.EndPoint) (fun s v => { s with EndPoint := v }) decodeFloat3,
   Field.of "RotationOrder" (fun s => s.RotationOrder) (fun s v => { s with RotationOrder := v })
     decodeString]

/-- What `encoding/json` does to decode into a `Preview`. -/
def Preview.decode : Dec Preview := decodeStruct "daz.Preview" Preview.fields

/-- Go `type NodeInstance struct`. -/
structure NodeInstance where
  ID : String
  URL : String
  Parent : String
  ParentInPlace : String
  ConformTarget : String
  Geometries : GoSlice GeometryInstance
  Preview : Preview
deriving DecidableEq, Repr

/-- The zero value of `NodeInstance`. -/
def NodeInstance.zero : NodeInstance := ⟨"", "", "", "", "", .nil, Preview.zero⟩

/-- The fields of `NodeInstance`; none has a `json` tag. -/
def NodeInstance.fields (grow : Nat → Nat) : List (Field NodeInstance) :=
  [Field.of "ID" (fun s => s.ID) (fun s v => { s with ID := v }) decodeString,
   Field.of "URL" (fun s => s.URL) (fun s v => { s with URL := v }) decodeString,
   Field.of "Parent" (fun s => s.Parent) (fun s v => { s with Parent := v }) decodeString,
   Field.of "ParentInPlace" (fun s => s.ParentInPlace) (fun s v => { s with ParentInPlace := v })
     decodeString,
   Field.of "ConformTarget" (fun s => s.ConformTarget) (fun s v => { s with ConformTarget := v })
     decodeString,
   Field.of "Geometries" (fun s => s.Geometries) (fun s v => { s with Geometries := v })
     (decodeSlice grow "[]daz.GeometryInstance"
       (decodeStruct "daz.GeometryInstance" GeometryInstance.fields) GeometryInstance.zero),
   Field.of "Preview" (fun s => s.Preview) (fun s v => { s with Preview := v }) Preview.decode]

/-- What `encoding/json` does to decode into a `NodeInstance`. -/
def NodeInstance.decode (grow : Nat → Nat) : Dec NodeInstance :=
  decodeStruct "daz.NodeInstance" (NodeInstance.fields grow)

/-! ## JSON string literals -/

/-- One byte of a string inside a JSON string literal: the double quote, the
backslash and the control characters are escaped, as JSON requires; other
bytes stand for themselves. -/
def jsonEscapeByte (c : UInt8) : Bytes :=
  if c = 0x22 then [0x5c, 0x22]
  else if c = 0x5c then [0x5c, 0x5c]
  else if c.toNat < 0x20 then
    bytes "\\u00" ++ [lowerhex (c.toNat / 16), lowerhex (c.toNat % 16)]
  else [c]

/-- The JSON string literal of `s`: `s` between double quotes, with the
escapes JSON requires.  These are the bytes `encoding/json` hands to the
`UnmarshalJSON` of a field whose value is the string `s`. -/
def jsonStringLiteral (s : Bytes) : Bytes := 0x22 :: (s.flatMap jsonEscapeByte ++ [0x22])

/-! ## Reference resolution -/

/-- Modelled from the spec: the `Node` definition type of `node_library`,
which `types.go` names but does not declare.  The spec gives a definition
its document-unique `id`; the rest of its content is kept as `Content`. -/
structure Node where
  ID : String
  Content : String
deriving DecidableEq, Repr

/-- Go `type Duf struct`, with the fields reference resolution for nodes
reads: the version string and the node library, in document order. -/
structure Duf where
  FileVersion : String
  NodeLibrary : List Node
deriving DecidableEq, Repr

/-- Modelled from the spec: the errors of `Resolve`, each with the document
path or id it is about. -/
inductive ResolveError where
  | DocumentNotFound (path : String)
  | UnresolvedReference (id : String)
  | AmbiguousReference (id : String)
deriving DecidableEq, Repr

/-- Modelled from the spec: step 1 of `Resolve`, which is not in
`types.go`: split a reference into document path and fragment on the first
`#` (a reference without `#` has an empty fragment). -/
def splitReference (ref : String) : String × String :=
  (⟨ref.data.takeWhile fun c => c != '#'⟩, ⟨(ref.data.dropWhile fun c => c != '#').drop 1⟩)

/-- Modelled from the spec: `Resolve(ref, currentDocument, documentSet)` for
the reference of a node, which is not in `types.go`.  An empty document path
selects the current document, any other path is looked up in the document
set (`DocumentNotFound` if absent); the target's `node_library` is searched
for the definitions whose id is the fragment: exactly one is returned, none
is `UnresolvedReference`, several are `AmbiguousReference`. -/
def Resolve (ref : String) (currentDocument : Duf) (documentSet : List (String × Duf)) :
    Except ResolveError Node :=
  let path := (splitReference ref).1
  let fragment := (splitReference ref).2
  let target : Option Duf :=
    if path = "" then some currentDocument else documentSet.lookup path
  match target with
  | none => .error (.DocumentNotFound path)
  | some doc =>
    match doc.NodeLibrary.filter fun n => n.ID == fragment with
    | [] => .error (.UnresolvedReference fragment)
    | [n] => .ok n
    | _ :: _ :: _ => .error (.AmbiguousReference fragment)

/-! ## Notions used to state the properties -/

/-- A byte that `time.quote` and a JSON string literal both leave as it is:
ASCII from the space on, except the double quote and the backslash. -/
def plainByte (c : UInt8) : Prop :=
  0x20 ≤ c.toNat ∧ c.toNat < 0x80 ∧ c ≠ 0x22 ∧ c ≠ 0x5c

instance : DecidablePred plainByte := fun c => by unfold plainByte; infer_instance

/-- The range of a Go `int`. -/
def int64 (i : Int) : Prop := -(2 : Int) ^ 63 ≤ i ∧ i < (2 : Int) ^ 63

instance : DecidablePred int64 := fun i => by unfold int64; infer_instance

/-- The JSON token of an integer. -/
def jint (i : Int) : JSON := .num (.ofInt i)

/-- The first three of `xs` as a `[3]float32`, with zeros where `xs` has
fewer than three elements. -/
def firstThree (xs : List GoFloat) : GoArray 3 GoFloat :=
  ⟨[xs.getD 0 GoFloat.zero, xs.getD 1 GoFloat.zero, xs.getD 2 GoFloat.zero], rfl⟩

/-- The `float32` a number token is stored as (zero for a token with no
`float32` value). -/
def float32Of (n : JNumber) : GoFloat := (parseFloat32 n).getD GoFloat.zero

/-- Whether the dynamic type of an interface value is `int`. -/
def GoAny.isInt : GoAny → Bool
  | .int _ => true
  | _ => false

/-- Every element of the row is held under a dynamic type other than
`int`. -/
def noIntIn (row : GoArray 2 GoAny) : Prop := ∀ x ∈ row.val, x.isInt = false

/-- A decoder whose saved error depends on the JSON value only, not on what
the target held. -/
def errorByInput {α : Type} (dec : Dec α) : Prop :=
  ∀ (j : JSON) (a b : α), (dec j a).2 = (dec j b).2

/-- The six rotation orders the comment on `Preview.RotationOrder` lists. -/
def rotationOrders : List String := ["XYZ", "YZX", "ZYX", "ZXY", "XZY", "YXZ"]

/-! ## Lemmas on `time.Parse` and the error message -/

/-- A value that starts with a double quote fails at the year, the first
element of the layout, and the whole value is reported. -/
theorem timeParse_quote_head (v : Bytes) :
    timeParse (0x22 :: v) = .error (newParseError (0x22 :: v) (bytes "2006") (0x22 :: v) []) := by
  have h0 : (0x22 : UInt8).toNat = 34 := by decide
  have h : isDigit (0x22 :: v) 0 = false := by
    simp only [isDigit, List.getElem?_cons_zero, h0]
    decide
  simp [timeParse, h]

/-- On the JSON string literal of any string the method returns the year
error and leaves the receiver. -/
theorem UnmarshalJSON_jsonStringLiteral (dt : DazTime) (s : Bytes) :
    DazTime.UnmarshalJSON dt (jsonStringLiteral s) =
      (dt, some (newParseError (jsonStringLiteral s) (bytes "2006") (jsonStringLiteral s) [])) := by
  simp [DazTime.UnmarshalJSON, jsonStringLiteral, timeParse_quote_head]

/-- Plain bytes are not escaped by `time.quote`. -/
theorem flatMap_quoteByte_plain : ∀ (s : Bytes), (∀ c ∈ s, plainByte c) →
    s.flatMap quoteByte = s
  | [], _ => rfl
  | c :: s, h => by
    have hc : plainByte c := h c (List.mem_cons_self c s)
    have hs : s.flatMap quoteByte = s :=
      flatMap_quoteByte_plain s fun d hd => h d (List.mem_cons_of_mem c hd)
    obtain ⟨h1, h2, h3, h4⟩ := hc
    have hq : quoteByte c = [c] := by
      unfold quoteByte
      rw [if_neg (by omega), if_neg (by simp [h3, h4])]
    rw [List.flatMap_cons, hq, hs]
    rfl

/-- Plain bytes are not escaped in a JSON string literal. -/
theorem flatMap_jsonEscapeByte_plain : ∀ (s : Bytes), (∀ c ∈ s, plainByte c) →
    s.flatMap jsonEscapeByte = s
  | [], _ => rfl
  | c :: s, h => by
    have hc : plainByte c := h c (List.mem_cons_self c s)
    have hs : s.flatMap jsonEscapeByte = s :=
      flatMap_jsonEscapeByte_plain s fun d hd => h d (List.mem_cons_of_mem c hd)
    obtain ⟨h1, h2, h3, h4⟩ := hc
    have hq : jsonEscapeByte c = [c] := by
      unfold jsonEscapeByte
      rw [if_neg h3, if_neg h4, if_neg (by omega)]
    rw [List.flatMap_cons, hq, hs]
    rfl

/-- The literal of a string of plain bytes is the string between quotes. -/
theorem jsonStringLiteral_plain (s : Bytes) (h : ∀ c ∈ s, plainByte c) :
    jsonStringLiteral s = 0x22 :: (s ++ [0x22]) := by
  rw [jsonStringLiteral, flatMap_jsonEscapeByte_plain s h]

/-- The message of the year error on a quoted string of plain bytes contains
the string. -/
theorem year_error_message_contains (s : Bytes) (h : ∀ c ∈ s, plainByte c) :
    s <:+: (newParseError (0x22 :: (s ++ [0x22])) (bytes "2006") (0x22 :: (s ++ [0x22]))
      []).Error := by
  have hq : quote (0x22 :: (s ++ [0x22])) = bytes "\"\\\"" ++ s ++ bytes "\\\"\"" := by
    have e1 : quoteByte 0x22 = [0x5c, 0x22] := by decide
    simp only [quote, List.flatMap_cons, List.flatMap_append, List.flatMap_nil, e1,
      flatMap_quoteByte_plain s h]
    have e2 : bytes "\"\\\"" = [0x22, 0x5c, 0x22] := by decide
    have e3 : bytes "\\\"\"" = [0x5c, 0x22, 0x22] := by decide
    rw [e2, e3]
    simp
  simp only [ParseError.Error, newParseError, if_true, hq]
  refine ⟨bytes "parsing time " ++ bytes "\"\\\"", bytes "\\\"\"" ++ (bytes " as " ++
    (quote RFC3339 ++ (bytes ": cannot parse " ++ (bytes "\"\\\"" ++ s ++ bytes "\\\"\"" ++
      (bytes " as " ++ quote (bytes "2006")))))), ?_⟩
  simp only [List.append_assoc]

/-! ## The timestamp decoder -/

/-- C1, a defect of the code: `DazTime.UnmarshalJSON` hands the bytes it
receives to `time.Parse` with the quotes of the JSON string literal still on
them, so the literal of every string, well-formed timestamp or not, is
rejected at the year and the receiver is left as it was.  On
`2021-01-01T12:30:00+05:30`, which `time.Parse` reads as that time with the
offset +05:30 when it gets it without quotes, the method returns the error
`cannot parse "\"2021-01-01T12:30:00+05:30\"" as "2006"`. -/
theorem DazTime_UnmarshalJSON_rejects_quoted_timestamp :
    (∀ (dt : DazTime) (t : Bytes),
      (DazTime.UnmarshalJSON dt (jsonStringLiteral t)).1 = dt ∧
      (DazTime.UnmarshalJSON dt (jsonStringLiteral t)).2 ≠ none) ∧
    timeParse (bytes "2021-01-01T12:30:00+05:30") =
      .ok ⟨2021, 1, 1, 12, 30, 0, 0, .offset 19800⟩ ∧
    jsonStringLiteral (bytes "2021-01-01T12:30:00+05:30") =
      bytes "\"2021-01-01T12:30:00+05:30\"" ∧
    DazTime.UnmarshalJSON ⟨Time.zero⟩ (bytes "\"2021-01-01T12:30:00+05:30\"") =
      (⟨Time.zero⟩, some ⟨RFC3339, bytes "\"2021-01-01T12:30:00+05:30\"", bytes "2006",
        bytes "\"2021-01-01T12:30:00+05:30\"", []⟩) := by
  refine ⟨fun dt t => ?_, rfl, by decide, by decide⟩
  rw [UnmarshalJSON_jsonStringLiteral]
  exact ⟨rfl, by simp⟩

/-- C3 as stated fails: the string `a"b` is no timestamp, the call on its
JSON literal `"a\"b"` returns an error, and the error's message, in which
the quote and the backslash are escaped once more, does not contain
`a"b`. -/
theorem DazTime_error_message_omits_escaped_string :
    (∃ e, timeParse (bytes "a\"b") = .error e) ∧
    jsonStringLiteral (bytes "a\"b") = bytes "\"a\\\"b\"" ∧
    ∃ e, (DazTime.UnmarshalJSON ⟨Time.zero⟩ (jsonStringLiteral (bytes "a\"b"))).2 = some e ∧
      e.Error = bytes ("parsing time \"\\\"a\\\\\\\"b\\\"\" as \"2006-01-02T15:04:05Z07:00\"" ++
        ": cannot parse \"\\\"a\\\\\\\"b\\\"\" as \"2006\"") ∧
      ¬ (bytes "a\"b" <:+: e.Error) := by
  refine ⟨⟨_, rfl⟩, by decide, _, rfl, by decide, by decide⟩

/-- C3, amended: for every string `s` of ASCII characters from the space on
other than the double quote and the backslash (the characters neither JSON
nor the error message escapes), whether `s` is a timestamp or not,
`DazTime.UnmarshalJSON` on the JSON string literal of `s` returns a non-nil
error, leaves the receiver, and the error's message contains `s`. -/
theorem DazTime_UnmarshalJSON_error_contains_plain_string (dt : DazTime) (s : Bytes)
    (h : ∀ c ∈ s, plainByte c) :
    ∃ e, DazTime.UnmarshalJSON dt (jsonStringLiteral s) = (dt, some e) ∧ s <:+: e.Error := by
  refine ⟨_, UnmarshalJSON_jsonStringLiteral dt s, ?_⟩
  rw [jsonStringLiteral_plain s h]
  exact year_error_message_contains s h

/-- The amended C3 on the spec's example, the timestamp with month 13. -/
theorem DazTime_UnmarshalJSON_error_contains_plain_string_witness :
    (∀ c ∈ bytes "2021-13-01T00:00:00Z", plainByte c) ∧
    ∃ e, DazTime.UnmarshalJSON ⟨Time.zero⟩ (jsonStringLiteral (bytes "2021-13-01T00:00:00Z")) =
        (⟨Time.zero⟩, some e) ∧
      bytes "2021-13-01T00:00:00Z" <:+: e.Error :=
  ⟨by decide,
    DazTime_UnmarshalJSON_error_contains_plain_string ⟨Time.zero⟩ (bytes "2021-13-01T00:00:00Z")
      (by decide)⟩

/-! ## Lemmas on the reflective decoder -/

/-- The fuel of `grownCap` suffices: the capacity it returns holds the `n`
elements. -/
theorem grownCap_ge (grow : Nat → Nat) : ∀ (fuel cap n : Nat), n ≤ cap + fuel →
    n ≤ grownCap grow fuel cap n
  | 0, cap, n, h => by simpa [grownCap] using h
  | fuel + 1, cap, n, h => by
    unfold grownCap
    split
    · assumption
    · exact grownCap_ge grow fuel (max (cap + 1) (grow cap)) n
        (by have := Nat.le_max_left (cap + 1) (grow cap); omega)

/-- An integer token within the range of `int` parses to its value. -/
theorem parseInt64_ofInt (i : Int) (h : int64 i) : parseInt64 (JNumber.ofInt i) = some i := by
  obtain ⟨h1, h2⟩ := h
  have hv : (if decide (i < 0) = true then -((i.natAbs : Nat) : Int) else (i.natAbs : Int))
      = i := by
    by_cases hi : i < 0
    · simp only [hi, decide_True, if_true]; omega
    · simp only [hi, decide_False, Bool.false_eq_true, if_false]; omega
  simp only [parseInt64, JNumber.ofInt, and_self, if_true, hv]
  rw [if_pos ⟨h1, h2⟩]

/-- Decoding an integer token into an `int`, whatever the `int` held. -/
theorem decodeInt_jint (i v : Int) (h : int64 i) : decodeInt (jint i) v = (i, none) := by
  simp [decodeInt, jint, parseInt64_ofInt i h]

/-- The elements and the error of a decoded JSON array are those of the
element loop; the growth of the slice bears on its spare capacity only. -/
theorem decodeSlice_arr {α : Type} (grow : Nat → Nat) (ty : String) (dec : Dec α) (zero : α)
    (js : List JSON) (v : GoSlice α) :
    (decodeSlice grow ty dec zero (.arr js) v).1.elems = (decodeElems dec zero js v.backing).1 ∧
    (decodeSlice grow ty dec zero (.arr js) v).2 = (decodeElems dec zero js v.backing).2 := by
  cases js with
  | nil => exact ⟨rfl, rfl⟩
  | cons j js => exact ⟨rfl, rfl⟩

/-- The slice element loop on integer tokens stores the integers, whatever
the backing array held. -/
theorem decodeElems_jint : ∀ (vs : List Int) (back : List Int), (∀ v ∈ vs, int64 v) →
    decodeElems decodeInt 0 (vs.map jint) back = (vs, none)
  | [], _, _ => rfl
  | v :: vs, back, h => by
    have hv : int64 v := h v (List.mem_cons_self v vs)
    have ih := decodeElems_jint vs back.tail fun w hw => h w (List.mem_cons_of_mem v hw)
    simp [decodeElems, decodeInt_jint v _ hv, ih, firstError]

/-- Decoding an array of integer tokens into any `[]int`. -/
theorem decodeSlice_jint (grow : Nat → Nat) (ty : String) (vs : List Int) (v : GoSlice Int)
    (h : ∀ w ∈ vs, int64 w) :
    (decodeSlice grow ty decodeInt 0 (.arr (vs.map jint)) v).1.elems = vs ∧
    (decodeSlice grow ty decodeInt 0 (.arr (vs.map jint)) v).2 = none := by
  have e := decodeSlice_arr grow ty decodeInt 0 (vs.map jint) v
  rw [decodeElems_jint vs v.backing h] at e
  exact e

/-- The slice element loop on rows of integer tokens stores each row as a
slice of its integers, whatever the backing array held. -/
theorem decodeElems_rows (grow : Nat → Nat) : ∀ (rows : List (List Int))
    (back : List (GoSlice Int)), (∀ r ∈ rows, ∀ v ∈ r, int64 v) →
    (decodeElems (decodeSlice grow "[]int" decodeInt 0) .nil
      (rows.map fun r => JSON.arr (r.map jint)) back).1.map GoSlice.elems = rows ∧
    (decodeElems (decodeSlice grow "[]int" decodeInt 0) .nil
      (rows.map fun r => JSON.arr (r.map jint)) back).2 = none
  | [], _, _ => ⟨rfl, rfl⟩
  | r :: rows, back, h => by
    have hr := decodeSlice_jint grow "[]int" r (back.headD .nil)
      (h r (List.mem_cons_self r rows))
    have ih := decodeElems_rows grow rows back.tail
      fun w hw => h w (List.mem_cons_of_mem r hw)
    refine ⟨?_, ?_⟩
    · simp only [List.map_cons, decodeElems]
      rw [hr.1, ih.1]
    · simp only [List.map_cons, decodeElems]
      rw [hr.2, ih.2]
      rfl

/-! ## The count of the array containers -/

/-- C6 as stated fails: on `{"count":3,"values":[]}`, where the count is 3
and there are no entries, decoding into `IntArray` saves no error and yields
`Count = 3` with no values, and `FloatIndexedArray.UnmarshalJSON` returns nil
and leaves `Count = 3` with no values. -/
theorem count_mismatch_is_accepted :
    IntArray.decode growDouble (.obj [("count", jint 3), ("values", .arr [])]) IntArray.zero =
      (⟨3, .mk [] []⟩, none) ∧
    FloatIndexedArray.UnmarshalJSON growDouble FloatIndexedArray.zero
        (some (.obj [("count", jint 3), ("values", .arr [])])) =
      (⟨3, .mk [] []⟩, .returned none) := by
  constructor <;> decide

/-- C6, amended: the count is stored, not compared.  For every integer `c`
and all integer entries within the range of `int`, written as plain integer
tokens, decoding
`{"count": c, "values": [...]}` into an `IntArray`, whatever it held before,
saves no error and yields `Count = c` and the entries as the elements of
`Values`, whether or not `c` is their number; and for every receiver
`FloatIndexedArray.UnmarshalJSON` on `{"count": c, "values": []}` returns
nil and leaves `Count = c` and an empty `Values`.  This holds for every
growth of slices. -/
theorem count_is_stored_unchecked (grow : Nat → Nat) (c : Int) (vs : List Int)
    (x : IntArray) (f3 : FloatIndexedArray) (hc : int64 c) (hvs : ∀ v ∈ vs, int64 v) :
    ((IntArray.decode grow (.obj [("count", jint c), ("values", .arr (vs.map jint))]) x).2 =
        none ∧
      (IntArray.decode grow (.obj [("count", jint c), ("values", .arr (vs.map jint))])
        x).1.Count = c ∧
      (IntArray.decode grow (.obj [("count", jint c), ("values", .arr (vs.map jint))])
        x).1.Values.elems = vs) ∧
    FloatIndexedArray.UnmarshalJSON grow f3
        (some (.obj [("count", jint c), ("values", .arr [])])) =
      (⟨c, .mk [] []⟩, .returned none) := by
  have f1 : findField (IntArray.fields grow) "count" = (IntArray.fields grow)[0]? := rfl
  have f2 : findField (IntArray.fields grow) "values" = (IntArray.fields grow)[1]? := rfl
  have g1 : findField (floatidxiface.fields grow) "count" = (floatidxiface.fields grow)[0]? :=
    rfl
  have g2 : findField (floatidxiface.fields grow) "values" =
      (floatidxiface.fields grow)[1]? := rfl
  have hs := decodeSlice_jint grow "[]int" vs x.Values hvs
  constructor
  · simp only [IntArray.decode, decodeStruct, decodeMembers, f1, f2]
    simp [IntArray.fields, Field.of, decodeInt_jint c _ hc, hs.1, hs.2, firstError]
  · simp only [FloatIndexedArray.UnmarshalJSON, floatidxiface.decode, decodeStruct,
      decodeMembers, g1, g2]
    simp [floatidxiface.fields, Field.of, decodeInt_jint c _ hc, decodeSlice,
      floatidxiface.zero, firstError, GoSlice.elems, GoSlice.make, fillValues]

/-- The amended C6 at count 3 with the two entries 10 and 20, decoded into
an `IntArray` that held the count 9 and four other values, and with no
entries for a `FloatIndexedArray` that held a pair. -/
theorem count_is_stored_unchecked_witness :
    int64 3 ∧ (∀ v ∈ [(10 : Int), 20], int64 v) ∧
    ((IntArray.decode growDouble
        (.obj [("count", jint 3), ("values", .arr ([10, 20].map jint))])
        ⟨9, .mk [5, 6, 7, 8] []⟩).2 = none ∧
      (IntArray.decode growDouble
        (.obj [("count", jint 3), ("values", .arr ([10, 20].map jint))])
        ⟨9, .mk [5, 6, 7, 8] []⟩).1.Count = 3 ∧
      (IntArray.decode growDouble
        (.obj [("count", jint 3), ("values", .arr ([10, 20].map jint))])
        ⟨9, .mk [5, 6, 7, 8] []⟩).1.Values.elems = [10, 20]) ∧
    FloatIndexedArray.UnmarshalJSON growDouble ⟨7, .mk [⟨4, ⟨false, 3, -1⟩⟩] []⟩
        (some (.obj [("count", jint 3), ("values", .arr [])])) =
      (⟨3, .mk [] []⟩, .returned none) :=
  ⟨by decide, by decide,
    count_is_stored_unchecked growDouble 3 [10, 20] ⟨9, .mk [5, 6, 7, 8] []⟩
      ⟨7, .mk [⟨4, ⟨false, 3, -1⟩⟩] []⟩ (by decide) (by decide)⟩

/-! ## Polygon lists -/

/-- C9 as stated fails: a `Polylist` is a count and the rows and has no
place for a flag.  On `{"count":3,"values":[[0,1,2,3,4,5,6],[0,1],[0,1,2]]}`
decoding saves no error and the decoded value is the count with the three
rows of indices (in backing arrays of capacity 8, 2 and 4, the slice of rows
in one of capacity 4): the row of 7 and the row of 2 are stored like the row
of 3 and nothing marks them. -/
theorem Polylist_rows_carry_no_flag :
    Polylist.decode growDouble (.obj [("count", jint 3), ("values", .arr
        [.arr ([0, 1, 2, 3, 4, 5, 6].map jint), .arr ([0, 1].map jint),
          .arr ([0, 1, 2].map jint)])]) Polylist.zero =
      (⟨3, .mk [.mk [0, 1, 2, 3, 4, 5, 6] [0], .mk [0, 1] [], .mk [0, 1, 2] [0]] [.nil]⟩,
        none) := by
  decide

/-- C9, amended: for every polylist input whose count and indices are
integers within the range of `int`, written as plain integer tokens,
decoding into a `Polylist`, whatever it
held before, saves no error and keeps the count and every row with its
indices unchanged and in order, whatever the row's length; a decoded row is
a slice of its indices and holds nothing else, so a row outside [3,6]
differs from the others by its length only.  This holds for every growth of
slices. -/
theorem Polylist_decode_keeps_rows (grow : Nat → Nat) (c : Int) (rows : List (List Int))
    (x : Polylist) (hc : int64 c) (hrows : ∀ r ∈ rows, ∀ v ∈ r, int64 v) :
    (Polylist.decode grow (.obj [("count", jint c),
        ("values", .arr (rows.map fun r => JSON.arr (r.map jint)))]) x).2 = none ∧
    (Polylist.decode grow (.obj [("count", jint c),
        ("values", .arr (rows.map fun r => JSON.arr (r.map jint)))]) x).1.Count = c ∧
    (Polylist.decode grow (.obj [("count", jint c),
        ("values", .arr (rows.map fun r => JSON.arr (r.map jint)))]) x).1.Values.elems.map
      GoSlice.elems = rows := by
  have f1 : findField (Polylist.fields grow) "count" = (Polylist.fields grow)[0]? := rfl
  have f2 : findField (Polylist.fields grow) "values" = (Polylist.fields grow)[1]? := rfl
  have hs := decodeSlice_arr grow "[][]int" (decodeSlice grow "[]int" decodeInt 0) .nil
    (rows.map fun r => JSON.arr (r.map jint)) x.Values
  have he := decodeElems_rows grow rows x.Values.backing hrows
  rw [← hs.1, ← hs.2] at he
  simp only [Polylist.decode, decodeStruct, decodeMembers, f1, f2]
  simp [Polylist.fields, Field.of, decodeInt_jint c _ hc, he.1, he.2, firstError]

/-- The amended C9 on a row of 7 indices and a row of 2, decoded into a
`Polylist` that held the count 9 and one row. -/
theorem Polylist_decode_keeps_rows_witness :
    int64 1 ∧ (∀ r ∈ [[(0 : Int), 1, 2, 3, 4, 5, 6], [0, 1]], ∀ v ∈ r, int64 v) ∧
    (Polylist.decode growDouble (.obj [("count", jint 1), ("values", .arr
        ([[(0 : Int), 1, 2, 3, 4, 5, 6], [0, 1]].map fun r => JSON.arr (r.map jint)))])
        ⟨9, .mk [.mk [7, 8, 9] []] []⟩).2 = none ∧
    (Polylist.decode growDouble (.obj [("count", jint 1), ("values", .arr
        ([[(0 : Int), 1, 2, 3, 4, 5, 6], [0, 1]].map fun r => JSON.arr (r.map jint)))])
        ⟨9, .mk [.mk [7, 8, 9] []] []⟩).1.Count = 1 ∧
    (Polylist.decode growDouble (.obj [("count", jint 1), ("values", .arr
        ([[(0 : Int), 1, 2, 3, 4, 5, 6], [0, 1]].map fun r => JSON.arr (r.map jint)))])
        ⟨9, .mk [.mk [7, 8, 9] []] []⟩).1.Values.elems.map GoSlice.elems =
      [[0, 1, 2, 3, 4, 5, 6], [0, 1]] :=
  ⟨by decide, by decide,
    Polylist_decode_keeps_rows growDouble 1 [[0, 1, 2, 3, 4, 5, 6], [0, 1]]
      ⟨9, .mk [.mk [7, 8, 9] []] []⟩ (by decide) (by decide)⟩

/-! ## Tuples of three floats -/

/-- Decoding a number token that has a `float32` value, whatever the
`float32` held. -/
theorem decodeFloat32_num (n : JNumber) (v : GoFloat) (h : (parseFloat32 n).isSome) :
    decodeFloat32 (.num n) v = (float32Of n, none) := by
  obtain ⟨x, hx⟩ := Option.isSome_iff_exists.mp h
  simp [decodeFloat32, float32Of, hx]

/-- Decoding a JSON array of number tokens, of any length, into a
`[3]float32`, whatever it held: the first three numbers, with zeros in the
places the JSON array does not reach. -/
theorem decodeFloat3_row (r : List JNumber) (a : GoArray 3 GoFloat)
    (h : ∀ n ∈ r, (parseFloat32 n).isSome) :
    decodeFloat3 (.arr (r.map JSON.num)) a = (firstThree (r.map float32Of), none) := by
  obtain ⟨l, hl⟩ := a
  match l, hl with
  | [x, y, z], _ =>
    match r, h with
    | [], _ =>
      simp [decodeFloat3, decodeArray, decodeArrayElems, firstThree]
    | [n1], h =>
      have h1 := decodeFloat32_num n1 x (h n1 (by simp))
      simp [decodeFloat3, decodeArray, decodeArrayElems, firstThree, h1, firstError]
    | [n1, n2], h =>
      have h1 := decodeFloat32_num n1 x (h n1 (by simp))
      have h2 := decodeFloat32_num n2 y (h n2 (by simp))
      simp [decodeFloat3, decodeArray, decodeArrayElems, firstThree, h1, h2, firstError]
    | n1 :: n2 :: n3 :: rest, h =>
      have h1 := decodeFloat32_num n1 x (h n1 (by simp))
      have h2 := decodeFloat32_num n2 y (h n2 (by simp))
      have h3 := decodeFloat32_num n3 z (h n3 (by simp))
      cases rest <;>
        simp [decodeFloat3, decodeArray, decodeArrayElems, firstThree, h1, h2, h3, firstError]

/-- The slice element loop on rows of number tokens, whatever the backing
array held. -/
theorem decodeElems_float3 : ∀ (rows : List (List JNumber)) (back : List (GoArray 3 GoFloat)),
    (∀ r ∈ rows, ∀ n ∈ r, (parseFloat32 n).isSome) →
    decodeElems decodeFloat3 (GoArray.zero 3 GoFloat.zero)
      (rows.map fun r => JSON.arr (r.map JSON.num)) back =
      (rows.map fun r => firstThree (r.map float32Of), none)
  | [], _, _ => rfl
  | r :: rows, back, h => by
    have hr := decodeFloat3_row r (back.headD (GoArray.zero 3 GoFloat.zero))
      (h r (List.mem_cons_self r rows))
    have ih := decodeElems_float3 rows back.tail fun w hw => h w (List.mem_cons_of_mem r hw)
    simp only [List.map_cons, decodeElems]
    rw [hr, ih]
    rfl

/-- C7 as stated fails: on `{"count":2,"values":[[1,2],[1,2,3,4]]}`, decoded
into a `Float3Array` that held the two tuples (9, 9, 9) and (8, 8, 8),
decoding saves no error; the element of two numbers becomes the tuple
(1, 2, 0), its third place set to zero, and the element of four numbers
becomes (1, 2, 3), its fourth number discarded. -/
theorem Float3Array_pads_and_truncates :
    Float3Array.decode growDouble (.obj [("count", jint 2), ("values", .arr
        [.arr [jint 1, jint 2], .arr [jint 1, jint 2, jint 3, jint 4]])])
        ⟨7, .mk [⟨[⟨false, 9, 0⟩, ⟨false, 9, 0⟩, ⟨false, 9, 0⟩], rfl⟩,
          ⟨[⟨false, 1, 3⟩, ⟨false, 1, 3⟩, ⟨false, 1, 3⟩], rfl⟩] []⟩ =
      (⟨2, .mk [⟨[⟨false, 1, 0⟩, ⟨false, 1, 1⟩, GoFloat.zero], rfl⟩,
          ⟨[⟨false, 1, 0⟩, ⟨false, 1, 1⟩, ⟨false, 3, 0⟩], rfl⟩] []⟩, none) := by
  decide

/-- C7, amended: the 3-tuple codec does not test the shape of an element.
For every input whose count is a plain integer token within the range of
`int` and whose elements are arrays of numbers within the range of
`float32` (those `strconv.ParseFloat` accepts at 32 bits), of
whatever lengths, decoding into a `Float3Array`, whatever it held before,
saves no error and element `r` yields the tuple of its first three numbers:
the places of an element with fewer than three numbers that it does not
reach are zero, and the numbers after the third are discarded.  This holds
for every growth of slices. -/
theorem Float3Array_decode_any_shape (grow : Nat → Nat) (c : Int)
    (rows : List (List JNumber)) (x : Float3Array) (hc : int64 c)
    (hrows : ∀ r ∈ rows, ∀ n ∈ r, (parseFloat32 n).isSome) :
    (Float3Array.decode grow (.obj [("count", jint c),
        ("values", .arr (rows.map fun r => JSON.arr (r.map JSON.num)))]) x).2 = none ∧
    (Float3Array.decode grow (.obj [("count", jint c),
        ("values", .arr (rows.map fun r => JSON.arr (r.map JSON.num)))]) x).1.Count = c ∧
    (Float3Array.decode grow (.obj [("count", jint c),
        ("values", .arr (rows.map fun r => JSON.arr (r.map JSON.num)))]) x).1.Values.elems =
      rows.map fun r => firstThree (r.map float32Of) := by
  have f1 : findField (Float3Array.fields grow) "count" = (Float3Array.fields grow)[0]? := rfl
  have f2 : findField (Float3Array.fields grow) "values" = (Float3Array.fields grow)[1]? := rfl
  have hs := decodeSlice_arr grow "[][3]float32" decodeFloat3 (GoArray.zero 3 GoFloat.zero)
    (rows.map fun r => JSON.arr (r.map JSON.num)) x.Values
  rw [decodeElems_float3 rows x.Values.backing hrows] at hs
  simp only [Float3Array.decode, decodeStruct, decodeMembers, f1, f2]
  simp [Float3Array.fields, Field.of, decodeInt_jint c _ hc, hs.1, hs.2, firstError]

/-- The amended C7 on an element of two numbers and an element of four,
decoded into a `Float3Array` that held the tuples (9, 9, 9) and (8, 8, 8):
the third place of the first tuple is zero afterwards, not 9. -/
theorem Float3Array_decode_any_shape_witness :
    int64 2 ∧
    (∀ r ∈ [[JNumber.ofInt 1, .ofInt 2], [.ofInt 1, .ofInt 2, .ofInt 3, .ofInt 4]],
      ∀ n ∈ r, (parseFloat32 n).isSome) ∧
    (Float3Array.decode growDouble (.obj [("count", jint 2), ("values", .arr
        ([[JNumber.ofInt 1, .ofInt 2], [.ofInt 1, .ofInt 2, .ofInt 3, .ofInt 4]].map
          fun r => JSON.arr (r.map JSON.num)))])
        ⟨7, .mk [⟨[⟨false, 9, 0⟩, ⟨false, 9, 0⟩, ⟨false, 9, 0⟩], rfl⟩,
          ⟨[⟨false, 1, 3⟩, ⟨false, 1, 3⟩, ⟨false, 1, 3⟩], rfl⟩] []⟩).2 = none ∧
    (Float3Array.decode growDouble (.obj [("count", jint 2), ("values", .arr
        ([[JNumber.ofInt 1, .ofInt 2], [.ofInt 1, .ofInt 2, .ofInt 3, .ofInt 4]].map
          fun r => JSON.arr (r.map JSON.num)))])
        ⟨7, .mk [⟨[⟨false, 9, 0⟩, ⟨false, 9, 0⟩, ⟨false, 9, 0⟩], rfl⟩,
          ⟨[⟨false, 1, 3⟩, ⟨false, 1, 3⟩, ⟨false, 1, 3⟩], rfl⟩] []⟩).1.Count = 2 ∧
    (Float3Array.decode growDouble (.obj [("count", jint 2), ("values", .arr
        ([[JNumber.ofInt 1, .ofInt 2], [.ofInt 1, .ofInt 2, .ofInt 3, .ofInt 4]].map
          fun r => JSON.arr (r.map JSON.num)))])
        ⟨7, .mk [⟨[⟨false, 9, 0⟩, ⟨false, 9, 0⟩, ⟨false, 9, 0⟩], rfl⟩,
          ⟨[⟨false, 1, 3⟩, ⟨false, 1, 3⟩, ⟨false, 1, 3⟩], rfl⟩] []⟩).1.Values.elems =
      [[JNumber.ofInt 1, .ofInt 2], [.ofInt 1, .ofInt 2, .ofInt 3, .ofInt 4]].map
        fun r => firstThree (r.map float32Of) :=
  ⟨by decide, by decide,
    Float3Array_decode_any_shape growDouble 2
      [[JNumber.ofInt 1, .ofInt 2], [.ofInt 1, .ofInt 2, .ofInt 3, .ofInt 4]]
      ⟨7, .mk [⟨[⟨false, 9, 0⟩, ⟨false, 9, 0⟩, ⟨false, 9, 0⟩], rfl⟩,
        ⟨[⟨false, 1, 3⟩, ⟨false, 1, 3⟩, ⟨false, 1, 3⟩], rfl⟩] []⟩
      (by decide) (by decide)⟩

/-! ## Node instances and their preview -/

/-- The field a member name selects is one of the struct's fields, and its
name is the member name, exactly or under case folding. -/
theorem findField_spec {σ : Type} (fields : List (Field σ)) (k : String) (f : Field σ)
    (h : findField fields k = some f) :
    f ∈ fields ∧ (f.name = k ∨ foldName f.name = foldName k) := by
  unfold findField at h
  split at h
  · rename_i g hg
    cases h
    refine ⟨List.mem_of_find?_eq_some hg, Or.inl ?_⟩
    simpa using List.find?_some hg
  · refine ⟨List.mem_of_find?_eq_some h, Or.inr ?_⟩
    simpa using List.find?_some h

/-- The member loop on two lists of members one after the other. -/
theorem decodeMembers_append {σ : Type} (fields : List (Field σ)) :
    ∀ (a b : List (String × JSON)) (v : σ),
    decodeMembers fields (a ++ b) v =
      ((decodeMembers fields b (decodeMembers fields a v).1).1,
        firstError (decodeMembers fields a v).2
          (decodeMembers fields b (decodeMembers fields a v).1).2)
  | [], b, v => by simp [decodeMembers, firstError]
  | (k, j) :: a, b, v => by
    simp only [List.cons_append, decodeMembers]
    cases hk : findField fields k with
    | none => exact decodeMembers_append fields a b v
    | some f =>
      simp only []
      rw [show a.append b = a ++ b from rfl, decodeMembers_append fields a b (f.dec j v).1]
      cases (f.dec j v).2 <;> simp [firstError]

/-- The member loop of a struct whose field decoders save errors by the
input alone does so too. -/
theorem decodeMembers_errorByInput {σ : Type} (fields : List (Field σ))
    (h : ∀ f ∈ fields, errorByInput f.dec) :
    ∀ (ms : List (String × JSON)) (v w : σ),
      (decodeMembers fields ms v).2 = (decodeMembers fields ms w).2
  | [], _, _ => rfl
  | (k, j) :: ms, v, w => by
    simp only [decodeMembers]
    cases hk : findField fields k with
    | none => exact decodeMembers_errorByInput fields h ms v w
    | some f =>
      simp only []
      rw [h f (findField_spec fields k f hk).1 j v w,
        decodeMembers_errorByInput fields h ms (f.dec j v).1 (f.dec j w).1]

/-- The array element loop saves errors by the input alone when the element
decoder does. -/
theorem decodeArrayElems_errorByInput {α : Type} (dec : Dec α) (zero : α)
    (h : errorByInput dec) : ∀ (js : List JSON) (as bs : List α), as.length = bs.length →
      (decodeArrayElems dec zero js as).2 = (decodeArrayElems dec zero js bs).2
  | js, [], [], _ => by cases js <;> rfl
  | _, [], _ :: _, hl => by simp at hl
  | _, _ :: _, [], hl => by simp at hl
  | [], _ :: _, _ :: _, _ => rfl
  | j :: js, a :: as, b :: bs, hl => by
    simp only [decodeArrayElems]
    rw [h j a b, decodeArrayElems_errorByInput dec zero h js as bs (by simpa using hl)]

/-- Decoding into a `[3]float32` saves errors by the input alone. -/
theorem decodeFloat3_errorByInput : errorByInput decodeFloat3 := by
  have hf : errorByInput decodeFloat32 := by
    intro j a b
    cases j with
    | num n =>
      simp only [decodeFloat32]
      split <;> rfl
    | _ => rfl
  intro j a b
  cases j with
  | arr js =>
    exact decodeArrayElems_errorByInput decodeFloat32 GoFloat.zero hf js a.val b.val
      (a.property.trans b.property.symm)
  | _ => rfl

/-- Decoding into a `Preview` saves errors by the input alone. -/
theorem Preview_fields_errorByInput : ∀ f ∈ Preview.fields, errorByInput f.dec := by
  have hbox : errorByInput (decodeStruct "daz.OrientedBox" OrientedBox.fields) := by
    have hb : ∀ f ∈ OrientedBox.fields, errorByInput f.dec := by
      intro f hf
      simp only [OrientedBox.fields, List.mem_cons, List.mem_singleton, List.not_mem_nil,
        or_false] at hf
      rcases hf with rfl | rfl <;> exact fun j a b => decodeFloat3_errorByInput j _ _
    intro j a b
    cases j with
    | obj ms => exact decodeMembers_errorByInput OrientedBox.fields hb ms a b
    | _ => rfl
  have hstr : errorByInput decodeString := by
    intro j a b
    cases j <;> rfl
  intro f hf
  simp only [Preview.fields, List.mem_cons, List.mem_singleton, List.not_mem_nil,
    or_false] at hf
  rcases hf with rfl | rfl | rfl | rfl
  · exact fun j a b => hbox j _ _
  · exact fun j a b => decodeFloat3_errorByInput j _ _
  · exact fun j a b => decodeFloat3_errorByInput j _ _
  · exact fun j a b => hstr j _ _

/-- A member name equal to `RotationOrder` under case folding selects that
field of `Preview`. -/
theorem findField_RotationOrder (k : String) (hk : foldName k = foldName "RotationOrder") :
    findField Preview.fields k = Preview.fields[3]? := by
  have ne : ∀ n : String, foldName n ≠ foldName "RotationOrder" →
      (n == k) = false ∧ (foldName n == foldName k) = false := by
    intro n hn
    constructor
    · rw [beq_eq_false_iff_ne]
      rintro rfl
      exact hn hk
    · rw [hk, beq_eq_false_iff_ne]
      exact hn
  obtain ⟨a1, b1⟩ := ne "OrientedBox" (by decide)
  obtain ⟨a2, b2⟩ := ne "CenterPoint" (by decide)
  obtain ⟨a3, b3⟩ := ne "EndPoint" (by decide)
  have b4 : (foldName "RotationOrder" == foldName k) = true := by rw [hk]; exact beq_self_eq_true _
  by_cases h4 : ("RotationOrder" == k) = true
  · simp [findField, Preview.fields, Field.of, List.find?, a1, a2, a3, h4]
  · simp only [Bool.not_eq_true] at h4
    simp [findField, Preview.fields, Field.of, List.find?, a1, a2, a3, h4, b1, b2, b3, b4]

/-- Members whose names do not equal `RotationOrder` under case folding leave
that field of a `Preview` as it is. -/
theorem decodeMembers_keeps_RotationOrder : ∀ (ms : List (String × JSON)) (p : Preview),
    (∀ m ∈ ms, foldName m.1 ≠ foldName "RotationOrder") →
    (decodeMembers Preview.fields ms p).1.RotationOrder = p.RotationOrder
  | [], _, _ => rfl
  | (k, j) :: ms, p, h => by
    have hk : foldName k ≠ foldName "RotationOrder" := h (k, j) (List.mem_cons_self _ ms)
    have hms : ∀ m ∈ ms, foldName m.1 ≠ foldName "RotationOrder" :=
      fun m hm => h m (List.mem_cons_of_mem _ hm)
    simp only [decodeMembers]
    cases hf : findField Preview.fields k with
    | none => exact decodeMembers_keeps_RotationOrder ms p hms
    | some f =>
      simp only []
      rw [decodeMembers_keeps_RotationOrder ms (f.dec j p).1 hms]
      obtain ⟨hmem, hname⟩ := findField_spec Preview.fields k f hf
      simp only [Preview.fields, List.mem_cons, List.mem_singleton, List.not_mem_nil,
        or_false] at hmem
      rcases hmem with rfl | rfl | rfl | rfl
      · rfl
      · rfl
      · rfl
      · exfalso
        rcases hname with h1 | h1
        · apply hk
          have h2 : k = "RotationOrder" := h1.symm
          rw [h2]
        · exact hk h1.symm

/-- C8 as stated fails: the rotation order `ABC` is none of the six
permutations, yet decoding a preview that carries it saves no error.  Under
the DSON key `rotation_order` the decoded `RotationOrder` is the empty
string, under the key `RotationOrder` it is `ABC`; neither is one of the
six. -/
theorem Preview_accepts_unknown_rotation_order :
    "ABC" ∉ rotationOrders ∧ "" ∉ rotationOrders ∧
    Preview.decode (.obj [("rotation_order", .str "ABC")]) Preview.zero = (Preview.zero, none) ∧
    Preview.zero.RotationOrder = "" ∧
    Preview.decode (.obj [("RotationOrder", .str "ABC")]) Preview.zero =
      ({ Preview.zero with RotationOrder := "ABC" }, none) := by
  decide

/-- C8, amended: decoding into `Preview` does not validate the rotation
order.  Take any preview object, decoded into any `Preview`, and in it a
member whose name equals `RotationOrder` up to case and whose value is the
string `r`, one of the six permutations or not, no later member having such
a name.  Then the decoded `RotationOrder` is `r`, and the member adds no
error: the decoder returns exactly the error, if any, that it returns on
the object without this member. -/
theorem Preview_decode_stores_any_rotation_order (k r : String)
    (pre post : List (String × JSON)) (p : Preview)
    (hk : foldName k = foldName "RotationOrder")
    (hpost : ∀ m ∈ post, foldName m.1 ≠ foldName "RotationOrder") :
    (Preview.decode (.obj (pre ++ (k, .str r) :: post)) p).1.RotationOrder = r ∧
    (Preview.decode (.obj (pre ++ (k, .str r) :: post)) p).2 =
      (Preview.decode (.obj (pre ++ post)) p).2 := by
  have hone : ∀ (q : Preview), decodeMembers Preview.fields ((k, .str r) :: post) q =
      ((decodeMembers Preview.fields post { q with RotationOrder := r }).1,
        (decodeMembers Preview.fields post { q with RotationOrder := r }).2) := by
    intro q
    simp only [decodeMembers, findField_RotationOrder k hk]
    simp [Preview.fields, Field.of, decodeString, firstError]
  simp only [Preview.decode, decodeStruct]
  rw [decodeMembers_append, decodeMembers_append, hone]
  refine ⟨?_, ?_⟩
  · simp only []
    rw [decodeMembers_keeps_RotationOrder post _ hpost]
  · simp only []
    rw [decodeMembers_errorByInput Preview.fields Preview_fields_errorByInput post
      { (decodeMembers Preview.fields pre p).1 with RotationOrder := r }
      (decodeMembers Preview.fields pre p).1]

/-- The amended C8 on the member `"rotationorder": "ABC"` between a center
point and an end point, decoded into a `Preview` whose rotation order was
`XYZ`. -/
theorem Preview_decode_stores_any_rotation_order_witness :
    foldName "rotationorder" = foldName "RotationOrder" ∧
    (∀ m ∈ [("EndPoint", JSON.arr [jint 4, jint 5, jint 6])],
      foldName m.1 ≠ foldName "RotationOrder") ∧
    (Preview.decode (.obj ([("CenterPoint", JSON.arr [jint 1, jint 2, jint 3])] ++
        ("rotationorder", .str "ABC") :: [("EndPoint", JSON.arr [jint 4, jint 5, jint 6])]))
        { Preview.zero with RotationOrder := "XYZ" }).1.RotationOrder = "ABC" ∧
    (Preview.decode (.obj ([("CenterPoint", JSON.arr [jint 1, jint 2, jint 3])] ++
        ("rotationorder", .str "ABC") :: [("EndPoint", JSON.arr [jint 4, jint 5, jint 6])]))
        { Preview.zero with RotationOrder := "XYZ" }).2 =
      (Preview.decode (.obj ([("CenterPoint", JSON.arr [jint 1, jint 2, jint 3])] ++
        [("EndPoint", JSON.arr [jint 4, jint 5, jint 6])]))
        { Preview.zero with RotationOrder := "XYZ" }).2 :=
  ⟨by decide, by decide,
    Preview_decode_stores_any_rotation_order "rotationorder" "ABC"
      [("CenterPoint", JSON.arr [jint 1, jint 2, jint 3])]
      [("EndPoint", JSON.arr [jint 4, jint 5, jint 6])]
      { Preview.zero with RotationOrder := "XYZ" } (by decide) (by decide)⟩

/-- C5, a defect of the code: `NodeInstance` and `Preview` carry no `json`
tags, unlike the other structs of the file, so a member is matched to a
field by the Go field name up to case.  `id`, `url` and `parent` reach their
fields; `parent_in_place`, `conform_target` and `rotation_order` match no
field and are skipped.  Whatever string is supplied as `conform_target`, the
value is left as it was, and on the node instance below, decoded into a zero
value, `ParentInPlace`, `ConformTarget` and `Preview.RotationOrder` stay
empty though `#Q`, `#X` and `XYZ` were supplied. -/
theorem NodeInstance_decode_skips_snake_case_members :
    (∀ (grow : Nat → Nat) (n : NodeInstance) (x : String),
      NodeInstance.decode grow (.obj [("conform_target", .str x)]) n = (n, none)) ∧
    ∀ (grow : Nat → Nat),
      NodeInstance.decode grow (.obj [("id", .str "n1"), ("url", .str "#Def"),
        ("parent", .str "#P"), ("parent_in_place", .str "#Q"), ("conform_target", .str "#X"),
        ("preview", .obj [("rotation_order", .str "XYZ")])]) NodeInstance.zero =
      ({ NodeInstance.zero with ID := "n1", URL := "#Def", Parent := "#P" }, none) := by
  constructor
  · intro grow n x
    have f : findField (NodeInstance.fields grow) "conform_target" = none := rfl
    simp only [NodeInstance.decode, decodeStruct, decodeMembers, f]
  · intro grow
    rfl

/-! ## The sparse weight decoder -/

/-- `valueInterface` never yields an `int`. -/
theorem valueInterface_isInt (j : JSON) : (valueInterface j).1.isInt = false := by
  cases j with
  | num n =>
    simp only [valueInterface]
    split <;> rfl
  | _ => simp [valueInterface, GoAny.isInt]

/-- Decoding into an `interface{}` that holds no `int` leaves none in it. -/
theorem decodeInterface_isInt (j : JSON) (v : GoAny) (h : v.isInt = false) :
    (decodeInterface j v).1.isInt = false := by
  cases j with
  | num n =>
    simp only [decodeInterface]
    split
    · rfl
    · exact h
  | _ => simp [decodeInterface, valueInterface_isInt]

/-- The array element loop keeps `int` out of a `[2]interface{}`. -/
theorem decodeArrayElems_isInt : ∀ (js : List JSON) (as : List GoAny),
    (∀ x ∈ as, x.isInt = false) →
    ∀ x ∈ (decodeArrayElems decodeInterface GoAny.nil js as).1.val, x.isInt = false
  | _, [], _ => by
    intro x hx
    cases ‹List JSON› <;> simp [decodeArrayElems] at hx
  | [], a :: as, h => by
    intro x hx
    simp only [decodeArrayElems, List.mem_cons] at hx
    rcases hx with rfl | hx
    · rfl
    · exact decodeArrayElems_isInt [] as (fun y hy => h y (List.mem_cons_of_mem a hy)) x hx
  | j :: js, a :: as, h => by
    intro x hx
    simp only [decodeArrayElems, List.mem_cons] at hx
    rcases hx with rfl | hx
    · exact decodeInterface_isInt j a (h a (List.mem_cons_self a as))
    · exact decodeArrayElems_isInt js as (fun y hy => h y (List.mem_cons_of_mem a hy)) x hx

/-- Decoding into a `[2]interface{}` without `int` leaves it without. -/
theorem decodeArray_noIntIn (ty : String) (j : JSON) (v : GoArray 2 GoAny) (h : noIntIn v) :
    noIntIn (decodeArray ty decodeInterface GoAny.nil j v).1 := by
  cases j with
  | arr js => exact decodeArrayElems_isInt js v.val h
  | _ => exact h

/-- The zero `[2]interface{}` holds two nil interfaces. -/
theorem noIntIn_zero : noIntIn (GoArray.zero 2 GoAny.nil) := by
  intro x hx
  have hx2 : x ∈ List.replicate 2 GoAny.nil := hx
  rw [List.eq_of_mem_replicate hx2]
  rfl

/-- The slice element loop on rows without `int` yields rows without. -/
theorem decodeElems_noIntIn (ty : String) : ∀ (js : List JSON) (back : List (GoArray 2 GoAny)),
    (∀ r ∈ back, noIntIn r) →
    ∀ r ∈ (decodeElems (decodeArray ty decodeInterface GoAny.nil) (GoArray.zero 2 GoAny.nil)
      js back).1, noIntIn r
  | [], _, _ => by
    intro r hr
    simp [decodeElems] at hr
  | j :: js, back, h => by
    intro r hr
    simp only [decodeElems, List.mem_cons] at hr
    rcases hr with rfl | hr
    · apply decodeArray_noIntIn
      cases back with
      | nil => exact noIntIn_zero
      | cons b bs => exact h b (List.mem_cons_self b bs)
    · exact decodeElems_noIntIn ty js back.tail
        (fun y hy => h y (List.mem_of_mem_tail hy)) r hr

/-- Decoding into a `[][2]interface{}` whose backing array holds no `int`
leaves none in it. -/
theorem decodeSlice_noIntIn (grow : Nat → Nat) (ty ty2 : String) (j : JSON)
    (v : GoSlice (GoArray 2 GoAny)) (h : ∀ r ∈ v.backing, noIntIn r) :
    ∀ r ∈ (decodeSlice grow ty (decodeArray ty2 decodeInterface GoAny.nil)
      (GoArray.zero 2 GoAny.nil) j v).1.backing, noIntIn r := by
  cases j with
  | arr js =>
    cases js with
    | nil =>
      intro r hr
      simp [decodeSlice, GoSlice.backing] at hr
    | cons j js =>
      intro r hr
      simp only [decodeSlice, GoSlice.backing, spareAfter, List.mem_append] at hr
      rcases hr with hr | hr
      · exact decodeElems_noIntIn ty2 (j :: js) v.backing h r hr
      · have hr2 := List.mem_of_mem_drop hr
        rw [List.mem_append] at hr2
        rcases hr2 with hr2 | hr2
        · exact h r hr2
        · rw [List.eq_of_mem_replicate hr2]
          exact noIntIn_zero
  | null =>
    intro r hr
    simp [decodeSlice, GoSlice.backing] at hr
  | _ => exact h

/-- Decoding into a `floatidxiface` keeps `int` out of its `Values`. -/
theorem floatidxiface_decode_noIntIn (grow : Nat → Nat) (j : JSON) :
    ∀ r ∈ (floatidxiface.decode grow j floatidxiface.zero).1.Values.backing, noIntIn r := by
  have hf : ∀ f ∈ floatidxiface.fields grow, ∀ (j : JSON) (t : floatidxiface),
      (∀ r ∈ t.Values.backing, noIntIn r) → ∀ r ∈ (f.dec j t).1.Values.backing, noIntIn r := by
    intro f hf j t ht
    simp only [floatidxiface.fields, List.mem_cons, List.mem_singleton, List.not_mem_nil,
      or_false] at hf
    rcases hf with rfl | rfl
    · exact ht
    · exact decodeSlice_noIntIn grow _ _ j t.Values ht
  have hm : ∀ (ms : List (String × JSON)) (t : floatidxiface),
      (∀ r ∈ t.Values.backing, noIntIn r) →
      ∀ r ∈ (decodeMembers (floatidxiface.fields grow) ms t).1.Values.backing,
        noIntIn r := by
    intro ms
    induction ms with
    | nil => intro t ht; exact ht
    | cons m ms ih =>
      intro t ht
      obtain ⟨k, x⟩ := m
      simp only [decodeMembers]
      cases hk : findField (floatidxiface.fields grow) k with
      | none => exact ih t ht
      | some f => exact ih _ (hf f (findField_spec _ k f hk).1 x t ht)
  have hz : ∀ r ∈ floatidxiface.zero.Values.backing, noIntIn r := by
    intro r hr
    simp [floatidxiface.zero, GoSlice.backing] at hr
  cases j with
  | obj ms => exact hm ms floatidxiface.zero hz
  | _ => exact hz

/-- The loop of `UnmarshalJSON` panics at a first row without `int`. -/
theorem fillValues_panics (row : GoArray 2 GoAny) (rows : List (GoArray 2 GoAny)) (i : Nat)
    (vals : List FloatPair) (h : noIntIn row) :
    fillValues (row :: rows) i vals = (vals, some ⟨(row.get 0).typeName, "int"⟩) := by
  have hm : row.get 0 ∈ row.val := List.get_mem _ _ _
  have hi : (row.get 0).isInt = false := h _ hm
  have ha : assertInt (row.get 0) = .error ⟨(row.get 0).typeName, "int"⟩ := by
    cases hx : row.get 0 with
    | int k => rw [hx] at hi; exact absurd hi (by simp [GoAny.isInt])
    | _ => rfl
  simp only [fillValues, ha]

/-- C2, a defect of the code: `encoding/json` stores every number it decodes
into an `interface{}` as a `float64`, so the assertion
`temp.Values[i][0].(int)` cannot succeed.  On the spec's example
`{"count":2,"values":[[0,1.5],[3,2]]}` the call does not return: it panics
at the first pair with `interface {} is float64, not int`, after it has set
`Count` to 2 and `Values` to two zero pairs.  And whatever the receiver and
the input, when the call does return nil it has stored no pair at all:
`Values` is then empty.  Both hold for every growth of slices. -/
theorem FloatIndexedArray_UnmarshalJSON_panics_on_pairs :
    (∀ (grow : Nat → Nat),
      FloatIndexedArray.UnmarshalJSON grow FloatIndexedArray.zero
        (some (.obj [("count", jint 2), ("values", .arr
          [.arr [jint 0, .num ⟨false, 1, [5], none⟩], .arr [jint 3, jint 2]])])) =
      (⟨2, .mk [FloatPair.zero, FloatPair.zero] []⟩, .panicked ⟨some "float64", "int"⟩)) ∧
    ∀ (grow : Nat → Nat) (f3 : FloatIndexedArray) (b : Option JSON),
      (FloatIndexedArray.UnmarshalJSON grow f3 b).2 = .returned none →
      (FloatIndexedArray.UnmarshalJSON grow f3 b).1.Values = .mk [] [] := by
  refine ⟨fun grow => rfl, fun grow f3 b h => ?_⟩
  unfold FloatIndexedArray.UnmarshalJSON at h ⊢
  cases b with
  | none => simp at h
  | some j =>
    simp only at h ⊢
    have hok := floatidxiface_decode_noIntIn grow j
    generalize floatidxiface.decode grow j floatidxiface.zero = res at h hok ⊢
    obtain ⟨temp, err⟩ := res
    cases err with
    | some e => simp at h
    | none =>
      simp only at h hok ⊢
      cases hv : temp.Values.elems with
      | nil => simp [hv, GoSlice.make, GoSlice.elems, fillValues]
      | cons row rows =>
        have hrow : noIntIn row := by
          apply hok row
          cases hV : temp.Values with
          | nil => rw [hV] at hv; simp [GoSlice.elems] at hv
          | mk es sp =>
            rw [hV] at hv
            simp only [GoSlice.elems] at hv
            simp [GoSlice.backing, hv]
        rw [hv, fillValues_panics row rows 0 _ hrow] at h
        simp at h

/-- The second part of C2's theorem on `{"count":3,"values":[]}`, where the
call returns nil. -/
theorem FloatIndexedArray_UnmarshalJSON_panics_on_pairs_witness :
    (FloatIndexedArray.UnmarshalJSON growDouble ⟨1, .mk [⟨4, ⟨false, 3, -1⟩⟩] []⟩
        (some (.obj [("count", jint 3), ("values", .arr [])]))).2 = .returned none ∧
    (FloatIndexedArray.UnmarshalJSON growDouble ⟨1, .mk [⟨4, ⟨false, 3, -1⟩⟩] []⟩
        (some (.obj [("count", jint 3), ("values", .arr [])]))).1.Values = .mk [] [] :=
  ⟨by decide,
    FloatIndexedArray_UnmarshalJSON_panics_on_pairs.2 growDouble
      ⟨1, .mk [⟨4, ⟨false, 3, -1⟩⟩] []⟩
      (some (.obj [("count", jint 3), ("values", .arr [])])) (by decide)⟩

/-! ## Failure leaves the receiver -/

/-- C10: when `DazTime.UnmarshalJSON` or `FloatIndexedArray.UnmarshalJSON`
returns a non-nil error, the receiver holds the value it had before the
call.  Both methods assign to the receiver only after their last
`return err`. -/
theorem UnmarshalJSON_error_leaves_receiver :
    (∀ (dt : DazTime) (b : Bytes) (e : ParseError),
      (DazTime.UnmarshalJSON dt b).2 = some e → (DazTime.UnmarshalJSON dt b).1 = dt) ∧
    (∀ (grow : Nat → Nat) (f3 : FloatIndexedArray) (b : Option JSON) (e : DecodeError),
      (FloatIndexedArray.UnmarshalJSON grow f3 b).2 = .returned (some e) →
      (FloatIndexedArray.UnmarshalJSON grow f3 b).1 = f3) := by
  constructor
  · intro dt b e h
    unfold DazTime.UnmarshalJSON at h ⊢
    cases hp : timeParse b with
    | error err => rfl
    | ok t => rw [hp] at h; exact absurd h (by simp)
  · intro grow f3 b e h
    unfold FloatIndexedArray.UnmarshalJSON at h ⊢
    cases b with
    | none => rfl
    | some j =>
      simp only at h ⊢
      split
      · rfl
      · rename_i temp hd
        rw [hd] at h
        simp only at h
        split at h <;> simp at h

/-- C10 on a receiver that holds a time and the bytes `"x"`, and on a
receiver that holds a pair and the input `{"count":"x"}`. -/
theorem UnmarshalJSON_error_leaves_receiver_witness :
    (DazTime.UnmarshalJSON ⟨⟨2020, 2, 29, 1, 2, 3, 0, .UTC⟩⟩ (bytes "\"x\"")).2 =
      some ⟨RFC3339, bytes "\"x\"", bytes "2006", bytes "\"x\"", []⟩ ∧
    (DazTime.UnmarshalJSON ⟨⟨2020, 2, 29, 1, 2, 3, 0, .UTC⟩⟩ (bytes "\"x\"")).1 =
      ⟨⟨2020, 2, 29, 1, 2, 3, 0, .UTC⟩⟩ ∧
    (FloatIndexedArray.UnmarshalJSON growDouble ⟨1, .mk [⟨4, ⟨false, 3, -1⟩⟩] []⟩
        (some (.obj [("count", .str "x")]))).2 =
      .returned (some (.type ⟨"string", none, "int"⟩)) ∧
    (FloatIndexedArray.UnmarshalJSON growDouble ⟨1, .mk [⟨4, ⟨false, 3, -1⟩⟩] []⟩
        (some (.obj [("count", .str "x")]))).1 = ⟨1, .mk [⟨4, ⟨false, 3, -1⟩⟩] []⟩ :=
  ⟨by decide,
    UnmarshalJSON_error_leaves_receiver.1 ⟨⟨2020, 2, 29, 1, 2, 3, 0, .UTC⟩⟩ (bytes "\"x\"")
      ⟨RFC3339, bytes "\"x\"", bytes "2006", bytes "\"x\"", []⟩ (by decide),
    by decide,
    UnmarshalJSON_error_leaves_receiver.2 growDouble ⟨1, .mk [⟨4, ⟨false, 3, -1⟩⟩] []⟩
      (some (.obj [("count", .str "x")])) (.type ⟨"string", none, "int"⟩) (by decide)⟩

/-! ## Resolving a same-document reference -/

/-- A reference `#F` splits into the empty document path and the fragment
`F`. -/
theorem splitReference_fragment (F : String) : splitReference ("#" ++ F) = ("", F) := by
  have hd : ("#" ++ F).data = '#' :: F.data := by
    rw [String.data_append]
    rfl
  simp [splitReference, hd, List.takeWhile, List.dropWhile]

/-- C4: `Resolve` on the same-document reference `#F` of a node searches the
current document's `NodeLibrary` by id.  With exactly one entry of id `F` it
returns that entry; with none it fails with `UnresolvedReference`; with two
or more it fails with `AmbiguousReference` and picks none of them. -/
theorem Resolve_same_document_reference (F : String) (doc : Duf)
    (docs : List (String × Duf)) :
    (doc.NodeLibrary.countP (fun n => n.ID == F) = 1 →
      ∃ n, n ∈ doc.NodeLibrary ∧ n.ID = F ∧ Resolve ("#" ++ F) doc docs = .ok n) ∧
    (doc.NodeLibrary.countP (fun n => n.ID == F) = 0 →
      Resolve ("#" ++ F) doc docs = .error (.UnresolvedReference F)) ∧
    (2 ≤ doc.NodeLibrary.countP (fun n => n.ID == F) →
      Resolve ("#" ++ F) doc docs = .error (.AmbiguousReference F)) := by
  have hR : Resolve ("#" ++ F) doc docs =
      match doc.NodeLibrary.filter fun n => n.ID == F with
      | [] => .error (.UnresolvedReference F)
      | [n] => .ok n
      | _ :: _ :: _ => .error (.AmbiguousReference F) := by
    simp [Resolve, splitReference_fragment]
  rw [hR, List.countP_eq_length_filter]
  cases hf : doc.NodeLibrary.filter (fun n => n.ID == F) with
  | nil => simp
  | cons n rest =>
    have hn : n ∈ doc.NodeLibrary.filter (fun n => n.ID == F) := by
      rw [hf]
      exact List.mem_cons_self n rest
    rw [List.mem_filter] at hn
    cases rest with
    | nil =>
      refine ⟨fun _ => ⟨n, hn.1, ?_, rfl⟩, by simp, by simp⟩
      simpa using hn.2
    | cons m rest => simp

/-- C4 on a library with one entry of id `Genesis8Female`, on one with none
and on one with two. -/
theorem Resolve_same_document_reference_witness :
    (∃ n, n ∈ [(⟨"Genesis8Female", "figure"⟩ : Node), ⟨"Hair", "prop"⟩] ∧
      n.ID = "Genesis8Female" ∧
      Resolve ("#" ++ "Genesis8Female") ⟨"0.6.0.0", [⟨"Genesis8Female", "figure"⟩,
        ⟨"Hair", "prop"⟩]⟩ [] = .ok n) ∧
    Resolve ("#" ++ "Genesis8Female") ⟨"0.6.0.0", [⟨"Hair", "prop"⟩]⟩ [] =
      .error (.UnresolvedReference "Genesis8Female") ∧
    Resolve ("#" ++ "Genesis8Female") ⟨"0.6.0.0", [⟨"Genesis8Female", "figure"⟩,
      ⟨"Hair", "prop"⟩, ⟨"Genesis8Female", "copy"⟩]⟩ [] =
      .error (.AmbiguousReference "Genesis8Female") :=
  ⟨(Resolve_same_document_reference "Genesis8Female"
      ⟨"0.6.0.0", [⟨"Genesis8Female", "figure"⟩, ⟨"Hair", "prop"⟩]⟩ []).1 (by decide),
    (Resolve_same_document_reference "Genesis8Female" ⟨"0.6.0.0", [⟨"Hair", "prop"⟩]⟩ []).2.1
      (by decide),
    (Resolve_same_document_reference "Genesis8Female"
      ⟨"0.6.0.0", [⟨"Genesis8Female", "figure"⟩, ⟨"Hair", "prop"⟩,
        ⟨"Genesis8Female", "copy"⟩]⟩ []).2.2 (by decide)⟩

end Daz
